import Mathlib

/-!
# go-lambda-demo: the queue-mediated event pipeline

A shallow embedding of

* `cmd/sqs-consumer/main.go` (`NewHandler`, the SQS batch consumer),
* `example/event-receiver.go` (`NewEventReceiver`, `ReceiveInboundEvent`),
* `example/event.go` (`SomeDomainEvent`, `DynamoStore.PersistEvent`),
* `api/event-endpoint.go` (`NewEventReceiverEndpoint`),

together with the properties of the pipeline proved over it.

Conventions of the embedding.

* A Go `error` is a value of `GoError`; the `nil` error is `none`.
* A Go call that has side effects takes the state of the collaborator it
  talks to and returns the new state; every call on a collaborator and every
  log line is also appended to a list of `Effect`s, in program order.
* A Go `map[string]T` is an association list read with `List.lookup`; a Go
  slice that may be `nil` is an `Option (List _)`, `none` being `nil`.
* A Go `string` is a sequence of bytes. The strings whose bytes the program
  reads or re-encodes (the fields of the event and of the inbound payload, the
  generated identity, the bodies that carry JSON) are `GoString`s, which can
  hold bytes that are not valid UTF-8. The strings the program only copies,
  compares or logs (identifiers of messages, URLs, names, texts of logs and
  errors) are Lean `String`s.
-/

namespace GoLambdaDemo

/-! ## Errors -/

/-- A Go `error` value: either an error made somewhere else (`leaf`), or one
built by `fmt.Errorf` with the `%w` verb, which keeps the error it wraps. -/
inductive GoError where
  | leaf (msg : String)
  | wrapped (msg : String) (cause : GoError)
deriving DecidableEq, Repr

/-- The `Error()` method: the message of the error. -/
def GoError.Error : GoError → String
  | .leaf msg => msg
  | .wrapped msg _ => msg

/-- The function `errors.Unwrap`: the wrapped error, `nil` when there is none. -/
def GoError.Unwrap : GoError → Option GoError
  | .leaf _ => none
  | .wrapped _ cause => some cause

/-- The call `fmt.Errorf(pfx + "%w", err)`. -/
def fmtErrorfW (pfx : String) (err : GoError) : GoError :=
  .wrapped (pfx ++ err.Error) err

/-! ## Contexts, logging -/

/-- A `zerolog.Logger`, as far as the pipeline is concerned: a value that is
attached to a context and read back from it. -/
structure Logger where
  tag : String
deriving DecidableEq, Repr

/-- One value bound in a `context.Context`. -/
inductive CtxValue where
  | logger (l : Logger)
  | correlationID (id : String)
  | other (key : String) (val : String)
deriving DecidableEq, Repr

/-- A `context.Context`: the values bound in it, the most recent binding
first. `context.Background()` is the empty list; deriving a context conses a
binding and leaves the parent untouched. -/
abbrev Context := List CtxValue

/-- The method `logger.WithContext(ctx)` of zerolog: a child context that
carries the logger. -/
def Logger.WithContext (l : Logger) (ctx : Context) : Context :=
  .logger l :: ctx

/-- Modelled from the spec: `correlation.WithContext` (the package
`correlation` of this repository is used by the sources but its file is not
among them). It is the spec's `Bind(context, CorrelationIdentifier) -> context`:
"binding is additive and scoped: binding a new identifier to a derived context
must not affect the identifier visible through the parent context". -/
def correlation.WithContext (ctx : Context) (correlationID : String) : Context :=
  .correlationID correlationID :: ctx

/-- Modelled from the spec: `correlation.FromContext`, the spec's
`FromContext(context) -> CorrelationIdentifier or empty`: the identifier bound
most recently, the empty string when none is bound. -/
def correlation.FromContext : Context → String
  | [] => ""
  | .correlationID id :: _ => id
  | _ :: ctx => correlation.FromContext ctx

/-- The levels of zerolog used by the sources. -/
inductive Level where
  | trace | debug | info | warn | error
deriving DecidableEq, Repr

/-! ## Strings -/

/-- One step of Go's UTF-8 decoding of a string (`utf8.DecodeRuneInString`,
or a `range` loop): a character that is encoded validly, or one byte that is
not part of a valid encoding, for which Go gives `utf8.RuneError` with width
one. -/
inductive GoRune where
  | char (c : Char)
  | invalid (byte : Nat)
deriving DecidableEq, Repr

/-- A Go `string`, as its UTF-8 decoding reads it from left to right: the
characters it encodes and, where the bytes are not valid UTF-8, the bytes
themselves. -/
abbrev GoString := List GoRune

/-- The Go string that is the UTF-8 encoding of a text. -/
def GoString.ofString (s : String) : GoString :=
  s.data.map GoRune.char

/-- The rune Go's decoding gives for a step: the character, or
`utf8.RuneError`, which is U+FFFD, for an invalid byte. -/
def GoRune.decoded : GoRune → Char
  | .char c => c
  | .invalid _ => Char.ofNat 0xFFFD

/-- The text a Go string is once each byte that is not valid UTF-8 has been
replaced by U+FFFD, which is what the JSON encoder and decoder make of a
string. -/
def GoString.toValidUTF8 (s : GoString) : String :=
  String.mk (s.map GoRune.decoded)

/-- The function `utf8.ValidString`: no byte of the string is outside a valid
encoding. -/
def GoString.isValid (s : GoString) : Bool :=
  s.all (fun r => match r with | .char _ => true | .invalid _ => false)

/-! ## The domain event (example/event.go) -/

/-- The struct `SomeDomainEvent` of example/event.go. -/
structure SomeDomainEvent where
  ID : GoString
  Message : GoString
  Source : GoString
deriving DecidableEq, Repr

/-- The constant `CorrelationIDAttribute` of example/event-receiver.go. -/
def CorrelationIDAttribute : String := "correlationID"

/-! ## Struct fields and their tags -/

/-- A field of a Go struct as the reflection-based encoders see it: its Go
name and its struct tags, tag key to tag value. -/
structure StructField where
  Name : String
  Tag : List (String × String)
deriving DecidableEq, Repr

/-- The name an encoder that reads the tag `tagKey` gives a field: the value
of that tag, the Go name of the field when the field has no such tag. -/
def StructField.key (tagKey : String) (f : StructField) : String :=
  (f.Tag.lookup tagKey).getD f.Name

/-- The fields of `SomeDomainEvent` (example/event.go, lines 13-17): each has
a `json` tag and no other. -/
def SomeDomainEvent.fields : List StructField :=
  [{ Name := "ID", Tag := [("json", "id")] },
   { Name := "Message", Tag := [("json", "message")] },
   { Name := "Source", Tag := [("json", "source")] }]

/-- The values of the fields of an event, in the order of the fields. -/
def SomeDomainEvent.values (e : SomeDomainEvent) : List GoString :=
  [e.ID, e.Message, e.Source]

/-- The event whose fields have been assigned decoded texts by Go name, the
last assignment first; a field never assigned keeps the zero value, the empty
string. -/
def SomeDomainEvent.ofAssignments (as : List (String × String)) : SomeDomainEvent :=
  { ID := GoString.ofString ((as.lookup "ID").getD "")
    Message := GoString.ofString ((as.lookup "Message").getD "")
    Source := GoString.ofString ((as.lookup "Source").getD "") }

/-- The event with each byte of its fields that is not valid UTF-8 replaced
by U+FFFD. -/
def SomeDomainEvent.toValidUTF8 (e : SomeDomainEvent) : SomeDomainEvent :=
  { ID := GoString.ofString e.ID.toValidUTF8
    Message := GoString.ofString e.Message.toValidUTF8
    Source := GoString.ofString e.Source.toValidUTF8 }

/-- The struct `InboundEventPayload` of api/event-endpoint.go. -/
structure InboundEventPayload where
  Message : GoString
  Source : GoString
deriving DecidableEq, Repr

/-- The fields of `InboundEventPayload` (api/event-endpoint.go, lines 13-16). -/
def InboundEventPayload.fields : List StructField :=
  [{ Name := "Message", Tag := [("json", "message")] },
   { Name := "Source", Tag := [("json", "source")] }]

/-- The payload whose fields have been assigned decoded texts by Go name, the
last assignment first; a field never assigned keeps the empty string. -/
def InboundEventPayload.ofAssignments (as : List (String × String)) : InboundEventPayload :=
  { Message := GoString.ofString ((as.lookup "Message").getD "")
    Source := GoString.ofString ((as.lookup "Source").getD "") }

/-! ## The package encoding/json, for structs of strings

`json.Unmarshal` first checks that the input is one JSON value (RFC 8259)
between optional white space, and then stores the value in the struct;
`json.Marshal` writes the struct as an object. Both coerce strings to valid
UTF-8: the encoder writes `\ufffd` for a byte that is not valid UTF-8, and the
decoder stores U+FFFD for such a byte inside a string literal. The texts of the
errors are not modelled. -/

namespace json

/-- A JSON value. The digits of a number are kept as written. -/
inductive Value where
  | null
  | bool (b : Bool)
  | number (literal : List Char)
  | string (s : String)
  | array (items : List Value)
  | object (members : List (String × Value))
deriving Repr

/-- JSON white space. -/
def isSpace (c : Char) : Bool :=
  c = ' ' || c = '\t' || c = '\r' || c = '\n'

/-- Drop leading white space. -/
def skipSpace : List Char → List Char
  | [] => []
  | c :: cs => if isSpace c then skipSpace cs else c :: cs

/-- The value of a hexadecimal digit. -/
def hexValue (c : Char) : Option Nat :=
  if '0' ≤ c ∧ c ≤ '9' then some (c.toNat - 48)
  else if 'a' ≤ c ∧ c ≤ 'f' then some (c.toNat - 87)
  else if 'A' ≤ c ∧ c ≤ 'F' then some (c.toNat - 55)
  else none

/-- The function `getu4`: the number four hexadecimal digits write. -/
def getu4 (a b c d : Char) : Option Nat :=
  match hexValue a, hexValue b, hexValue c, hexValue d with
  | some a, some b, some c, some d => some (((a * 16 + b) * 16 + c) * 16 + d)
  | _, _, _, _ => none

/-- One unit of the inside of a string literal: a character (written as
itself or with a one-letter escape), or the number of a `\uXXXX` escape. -/
inductive Unit16 where
  | lit (c : Char)
  | esc (n : Nat)
deriving DecidableEq, Repr

/-- The character a one-letter escape stands for. -/
def simpleEscape (e : Char) : Option Char :=
  if e = '"' then some '"'
  else if e = '\\' then some '\\'
  else if e = '/' then some '/'
  else if e = 'b' then some (Char.ofNat 8)
  else if e = 'f' then some (Char.ofNat 12)
  else if e = 'n' then some '\n'
  else if e = 'r' then some '\r'
  else if e = 't' then some '\t'
  else none

/-- Scan a string literal from after its opening quote to its closing quote:
the units of the string and the rest of the input. A control character, an
unknown escape or a missing closing quote is a syntax error. -/
def scanString : List Char → Option (List Unit16 × List Char)
  | [] => none
  | c :: rest =>
    if c = '"' then some ([], rest)
    else if c = '\\' then
      match rest with
      | [] => none
      | e :: rest =>
        if e = 'u' then
          match rest with
          | a :: b :: c :: d :: rest =>
            match getu4 a b c d with
            | none => none
            | some n => (scanString rest).map (fun r => (Unit16.esc n :: r.1, r.2))
          | _ => none
        else
          match simpleEscape e with
          | none => none
          | some ch => (scanString rest).map (fun r => (Unit16.lit ch :: r.1, r.2))
    else if c.toNat < 0x20 then none
    else (scanString rest).map (fun r => (Unit16.lit c :: r.1, r.2))

/-- The rune `unicode.ReplacementChar`. -/
def replacementChar : Char := Char.ofNat 0xFFFD

/-- A high (leading) UTF-16 surrogate. -/
def isHighSurrogate (n : Nat) : Bool := 0xD800 ≤ n && n < 0xDC00

/-- A low (trailing) UTF-16 surrogate. -/
def isLowSurrogate (n : Nat) : Bool := 0xDC00 ≤ n && n < 0xE000

/-- The characters of a scanned string, as `unquote` gives them: a `\uXXXX`
escape is the character of that number, a high surrogate escape directly
followed by a low surrogate escape is the character the pair encodes, and any
other surrogate escape is the replacement character. The first argument is the
high surrogate waiting for its partner, if any. -/
def decodeUnits : Option Nat → List Unit16 → List Char
  | none, [] => []
  | some _, [] => [replacementChar]
  | none, .lit c :: rest => c :: decodeUnits none rest
  | some _, .lit c :: rest => replacementChar :: c :: decodeUnits none rest
  | none, .esc n :: rest =>
    if isHighSurrogate n then decodeUnits (some n) rest
    else if isLowSurrogate n then replacementChar :: decodeUnits none rest
    else Char.ofNat n :: decodeUnits none rest
  | some hi, .esc n :: rest =>
    if isLowSurrogate n then
      Char.ofNat ((hi - 0xD800) * 0x400 + (n - 0xDC00) + 0x10000) :: decodeUnits none rest
    else if isHighSurrogate n then replacementChar :: decodeUnits (some n) rest
    else replacementChar :: Char.ofNat n :: decodeUnits none rest

/-- A string literal, from after its opening quote: the string and the rest
of the input. -/
def parseString (cs : List Char) : Option (String × List Char) :=
  (scanString cs).map (fun r => (String.mk (decodeUnits none r.1), r.2))

/-- A decimal digit. -/
def isDigit (c : Char) : Bool := '0' ≤ c && c ≤ '9'

/-- The leading digits of the input, and the rest. -/
def takeDigits : List Char → List Char × List Char
  | [] => ([], [])
  | c :: cs =>
    if isDigit c then (c :: (takeDigits cs).1, (takeDigits cs).2) else ([], c :: cs)

/-- The integer part of a number: `0`, or a digit from 1 to 9 and digits. -/
def parseInt : List Char → Option (List Char × List Char)
  | [] => none
  | c :: rest =>
    if c = '0' then some ([c], rest)
    else if isDigit c then some (c :: (takeDigits rest).1, (takeDigits rest).2)
    else none

/-- The optional fraction of a number: a point and at least one digit. -/
def parseFrac : List Char → Option (List Char × List Char)
  | [] => some ([], [])
  | c :: rest =>
    if c = '.' then
      match takeDigits rest with
      | ([], _) => none
      | (ds, rest) => some (c :: ds, rest)
    else some ([], c :: rest)

/-- The optional sign of an exponent. -/
def takeSign : List Char → List Char × List Char
  | [] => ([], [])
  | c :: rest => if c = '+' ∨ c = '-' then ([c], rest) else ([], c :: rest)

/-- The optional exponent of a number: `e` or `E`, an optional sign and at
least one digit. -/
def parseExp : List Char → Option (List Char × List Char)
  | [] => some ([], [])
  | c :: rest =>
    if c = 'e' ∨ c = 'E' then
      match takeDigits (takeSign rest).2 with
      | ([], _) => none
      | (ds, rest') => some (c :: (takeSign rest).1 ++ ds, rest')
    else some ([], c :: rest)

/-- A number: an optional minus sign, the integer part, an optional fraction
and an optional exponent. -/
def parseNumber (cs : List Char) : Option (List Char × List Char) :=
  let signed : List Char × List Char :=
    match cs with
    | [] => ([], [])
    | c :: rest => if c = '-' then ([c], rest) else ([], c :: rest)
  match parseInt signed.2 with
  | none => none
  | some (ip, cs) =>
    match parseFrac cs with
    | none => none
    | some (fp, cs) =>
      match parseExp cs with
      | none => none
      | some (ep, cs) => some (signed.1 ++ ip ++ fp ++ ep, cs)

/-- A value that is not an object or an array, from its first character: a
string, `true`, `false`, `null` or a number. -/
def parseScalar (c : Char) (rest : List Char) : Option (Value × List Char) :=
  if c = '"' then
    (parseString rest).map (fun r => (.string r.1, r.2))
  else if c = 't' then
    match rest with
    | 'r' :: 'u' :: 'e' :: rest => some (.bool true, rest)
    | _ => none
  else if c = 'f' then
    match rest with
    | 'a' :: 'l' :: 's' :: 'e' :: rest => some (.bool false, rest)
    | _ => none
  else if c = 'n' then
    match rest with
    | 'u' :: 'l' :: 'l' :: rest => some (.null, rest)
    | _ => none
  else
    (parseNumber (c :: rest)).map (fun r => (.number r.1, r.2))

/-- The constant `maxNestingDepth` of the scanner: how many objects and
arrays may be open at once. -/
def maxNestingDepth : Nat := 10000

mutual

/-- One JSON value, after optional white space, and the rest of the input.
The first argument bounds the number of nested calls (`parse` gives one more
than the length of the input); the second is the number of objects and arrays
that are open, which opening one more must not bring above
`maxNestingDepth`. -/
def parseValue : Nat → Nat → List Char → Option (Value × List Char)
  | 0, _, _ => none
  | fuel + 1, depth, cs =>
    match skipSpace cs with
    | [] => none
    | c :: rest =>
      if c = '{' then
        if maxNestingDepth ≤ depth then none
        else
          match skipSpace rest with
          | [] => none
          | c' :: rest' =>
            if c' = '}' then some (.object [], rest')
            else
              (parseMembers fuel (depth + 1) (c' :: rest')).map (fun r => (.object r.1, r.2))
      else if c = '[' then
        if maxNestingDepth ≤ depth then none
        else
          match skipSpace rest with
          | [] => none
          | c' :: rest' =>
            if c' = ']' then some (.array [], rest')
            else
              (parseElements fuel (depth + 1) (c' :: rest')).map (fun r => (.array r.1, r.2))
      else parseScalar c rest

/-- The elements of an array, up to and with its closing bracket. -/
def parseElements : Nat → Nat → List Char → Option (List Value × List Char)
  | 0, _, _ => none
  | fuel + 1, depth, cs =>
    match parseValue fuel depth cs with
    | none => none
    | some (v, rest) =>
      match skipSpace rest with
      | [] => none
      | c :: rest =>
        if c = ',' then (parseElements fuel depth rest).map (fun r => (v :: r.1, r.2))
        else if c = ']' then some ([v], rest)
        else none

/-- The members of an object, up to and with its closing brace. -/
def parseMembers : Nat → Nat → List Char → Option (List (String × Value) × List Char)
  | 0, _, _ => none
  | fuel + 1, depth, cs =>
    match skipSpace cs with
    | [] => none
    | q :: rest =>
      if q = '"' then
        match parseString rest with
        | none => none
        | some (key, rest) =>
          match skipSpace rest with
          | [] => none
          | c :: rest =>
            if c = ':' then
              match parseValue fuel depth rest with
              | none => none
              | some (v, rest) =>
                match skipSpace rest with
                | [] => none
                | c :: rest =>
                  if c = ',' then
                    (parseMembers fuel depth rest).map (fun r => ((key, v) :: r.1, r.2))
                  else if c = '}' then some ([(key, v)], rest)
                  else none
            else none
      else none

end

/-- What it is for a parser with a fuel argument to have enough of it: a
result comes with input consumed, and any fuel that is at least the number of
characters consumed gives the same result. -/
def Adequate {α : Type} (p : Nat → Nat → List Char → Option (α × List Char)) (f : Nat) :
    Prop :=
  ∀ (d : Nat) (cs : List Char) (r : α × List Char), p f d cs = some r →
    r.2.length < cs.length ∧ ∀ g, cs.length - r.2.length ≤ g → p g d cs = some r

/-- The JSON value a text is, `none` when the text is not valid JSON (the
check `checkValid` of `json.Unmarshal`). The scanner of Go reads bytes: a byte
that is not valid UTF-8 is let through inside a string literal, where
`unquote` stores U+FFFD for it, and is a syntax error anywhere else. Here the
input is read with such a byte as the character U+FFFD, which gives the same,
a U+FFFD outside a string literal being a syntax error too. The fuel given is
enough for every text (`parse_of_parseValue`). -/
def parse (data : GoString) : Option Value :=
  match parseValue (data.length + 1) 0 (data.map GoRune.decoded) with
  | some (v, rest) => if skipSpace rest = [] then some v else none
  | none => none

/-- Case folding of one character of a key, as `foldName` does it: an ASCII
letter becomes its capital, and so do the two letters outside ASCII that fold
to an ASCII letter, the long s and the Kelvin sign. -/
def foldChar (c : Char) : Char :=
  if 'a' ≤ c ∧ c ≤ 'z' then Char.ofNat (c.toNat - 32)
  else if c = Char.ofNat 0x17F then 'S'
  else if c = Char.ofNat 0x212A then 'K'
  else c

/-- The function `foldName`: a key with its case folded. -/
def foldName (s : String) : List Char :=
  s.data.map foldChar

/-- The field an object key is stored in: the field with exactly that name,
else the first field whose name is the key up to case, else none (the member
is skipped). The names are those of the `json` tags. -/
def findField (fields : List StructField) (key : String) : Option StructField :=
  match fields.find? (fun f => f.key "json" = key) with
  | some f => some f
  | none => fields.find? (fun f => foldName (f.key "json") = foldName key)

/-- Store the members of an object in a struct of strings, in the order of
the text. A string is assigned to its field (a later member for the same field
overwrites an earlier one), `null` leaves the field as it is, and any other
value is a type error: the first one is kept and decoding goes on. The result
is the fields assigned, the last assignment first, and the error kept. -/
def decodeMembers (fields : List StructField) :
    List (String × Value) → List (String × String) × Option GoError →
      List (String × String) × Option GoError
  | [], acc => acc
  | (key, v) :: rest, (as, saved) =>
    match findField fields key with
    | none => decodeMembers fields rest (as, saved)
    | some f =>
      match v with
      | .string s => decodeMembers fields rest ((f.Name, s) :: as, saved)
      | .null => decodeMembers fields rest (as, saved)
      | _ =>
        decodeMembers fields rest
          (as, saved.orElse (fun _ =>
            some (.leaf ("json: cannot unmarshal value into Go struct field " ++ f.Name))))

/-- The function `json.Unmarshal(data, &v)` for `v` a zero-valued struct of
string fields: a syntax error when the text is not valid JSON; nothing is
assigned for `null`; the members are stored for an object; any other value is
a type error. -/
def unmarshalStruct (fields : List StructField) (data : GoString) :
    Except GoError (List (String × String)) :=
  match parse data with
  | none => .error (.leaf "json: syntax error")
  | some .null => .ok []
  | some (.object members) =>
    match decodeMembers fields members ([], none) with
    | (as, none) => .ok as
    | (_, some err) => .error err
  | some _ => .error (.leaf "json: cannot unmarshal value into Go value of struct type")

/-- Whether a JSON value is a string or `null`, the two values that are
stored in a string field without an error. -/
def Value.fitsString : Value → Bool
  | .string _ => true
  | .null => true
  | _ => false

/-- Whether a JSON value is an object. -/
def Value.isObject : Value → Bool
  | .object _ => true
  | _ => false

/-- Whether a JSON value is `null`. -/
def Value.isNull : Value → Bool
  | .null => true
  | _ => false

/-- In words, the JSON values that `json.Unmarshal` stores in a struct of
string fields without an error: `null`, and the objects in which every member
that is named as a field, exactly or up to case, is a string or `null`. -/
def storesWithoutError (fields : List StructField) : Value → Bool
  | .null => true
  | .object members =>
    members.all (fun kv => (findField fields kv.1).isNone || kv.2.fitsString)
  | _ => false

/-- In words, the texts that `json.Unmarshal` stores in a struct of string
fields without an error: the valid JSON texts of the values that
`storesWithoutError` describes. -/
def unmarshals (fields : List StructField) (body : GoString) : Bool :=
  match parse body with
  | some v => storesWithoutError fields v
  | none => false

/-- The digit for a number below sixteen, as in the table `hex` of the
encoder. -/
def hexDigit (n : Nat) : Char :=
  if n < 10 then Char.ofNat (48 + n) else Char.ofNat (87 + n)

/-- How `appendString` writes one character with HTML escaping on, which is
what `json.Marshal` uses: the quote and the backslash get a backslash, the
control characters with a short form get it, the other characters below the
space and `<`, `>`, `&` are written `\u00XX`, the line and paragraph separators
are written with the escapes u2028 and u2029, and every other character is
written as it is. -/
def escapeChar (c : Char) : List Char :=
  if c = '"' then ['\\', '"']
  else if c = '\\' then ['\\', '\\']
  else if c = Char.ofNat 8 then ['\\', 'b']
  else if c = Char.ofNat 12 then ['\\', 'f']
  else if c = '\n' then ['\\', 'n']
  else if c = '\r' then ['\\', 'r']
  else if c = '\t' then ['\\', 't']
  else if c.toNat < 0x20 ∨ c = '<' ∨ c = '>' ∨ c = '&' then
    ['\\', 'u', '0', '0', hexDigit (c.toNat / 16), hexDigit (c.toNat % 16)]
  else if c = Char.ofNat 0x2028 then ['\\', 'u', '2', '0', '2', '8']
  else if c = Char.ofNat 0x2029 then ['\\', 'u', '2', '0', '2', '9']
  else [c]

/-- How `appendString` writes one decoding step of a string: a character is
written by `escapeChar`, and a byte that is not valid UTF-8 is written as the
escape of the replacement character, backslash `ufffd`. -/
def escapeRune : GoRune → List Char
  | .char c => escapeChar c
  | .invalid _ => ['\\', 'u', 'f', 'f', 'f', 'd']

/-- The unit the scanner reads back for a character the encoder wrote. -/
def unitOf (c : Char) : Unit16 :=
  if c = '"' ∨ c = '\\' ∨ c = Char.ofNat 8 ∨ c = Char.ofNat 12 ∨ c = '\n' ∨ c = '\r' ∨
      c = '\t' then .lit c
  else if c.toNat < 0x20 ∨ c = '<' ∨ c = '>' ∨ c = '&' then .esc c.toNat
  else if c = Char.ofNat 0x2028 ∨ c = Char.ofNat 0x2029 then .esc c.toNat
  else .lit c

/-- The unit the scanner reads back for a decoding step the encoder wrote. -/
def unitOfRune : GoRune → Unit16
  | .char c => unitOf c
  | .invalid _ => .esc 0xFFFD

/-- A string as a JSON string literal. -/
def quote (s : GoString) : List Char :=
  '"' :: (s.flatMap escapeRune ++ ['"'])

/-- The members of an object, name and value, written one after the other
with commas. -/
def writeMembers : List (String × GoString) → List Char
  | [] => []
  | [(k, v)] => quote (GoString.ofString k) ++ ':' :: quote v
  | (k, v) :: rest =>
    quote (GoString.ofString k) ++ ':' :: quote v ++ ',' :: writeMembers rest

/-- The function `json.Marshal` on a struct of string fields, given the
fields and their values: an object with one member per field, in the order of
the fields, named by the `json` tag. What it writes is valid UTF-8. -/
def marshalStruct (fields : List StructField) (values : List GoString) : GoString :=
  ('{' :: (writeMembers ((fields.map (StructField.key "json")).zip values) ++ ['}'])).map
    GoRune.char

/-- The call `json.Marshal(event)` for a `SomeDomainEvent`; it has no error
for a struct of strings. -/
def Marshal (event : SomeDomainEvent) : Except GoError GoString :=
  .ok (marshalStruct SomeDomainEvent.fields event.values)

/-- The call `json.Unmarshal([]byte(body), &event)` for a zero
`SomeDomainEvent`. -/
def Unmarshal (body : GoString) : Except GoError SomeDomainEvent :=
  (unmarshalStruct SomeDomainEvent.fields body).map SomeDomainEvent.ofAssignments

/-- The call `json.Unmarshal(body, &payload)` for a zero
`InboundEventPayload`. -/
def UnmarshalPayload (body : GoString) : Except GoError InboundEventPayload :=
  (unmarshalStruct InboundEventPayload.fields body).map InboundEventPayload.ofAssignments

end json

/-! ## The AWS requests the pipeline sends -/

/-- The struct `types.MessageAttributeValue` of the SQS client, the fields
the publisher sets; a Go `*string` that is `nil` is `none`. -/
structure MessageAttributeValue where
  DataType : Option String
  StringValue : Option String
deriving DecidableEq, Repr

/-- The struct `sqs.SendMessageInput`, the fields the publisher sets. -/
structure SendMessageInput where
  MessageBody : Option GoString
  QueueUrl : Option String
  DelaySeconds : Int
  MessageAttributes : List (String × MessageAttributeValue)
deriving DecidableEq, Repr

/-- The union `types.AttributeValue` of the DynamoDB client, the members a
struct of strings marshals to. -/
inductive AttributeValue where
  | S (Value : GoString)
  | NULL (Value : Bool)
deriving DecidableEq, Repr

/-- The struct `dynamodb.PutItemInput`, the fields the store sets. -/
structure PutItemInput where
  TableName : Option String
  Item : List (String × AttributeValue)
deriving DecidableEq, Repr

/-- The function `attributevalue.MarshalMap` of aws-sdk-go-v2 on a struct of
string fields, given the fields and their values: a map with one string
attribute per field. With the default encoder options, which `MarshalMap` uses,
the encoder reads the struct tag `dynamodbav` and no other, so a field without
that tag is named by its Go name; a string is stored as it is, byte for byte,
and an empty string is kept as an empty string attribute. -/
def attributevalue.MarshalMap (fields : List StructField) (values : List GoString) :
    Except GoError (List (String × AttributeValue)) :=
  .ok ((fields.map (StructField.key "dynamodbav")).zip (values.map AttributeValue.S))

/-! ## The responses of the HTTP endpoint -/

/-- Modelled from the spec: the type `FieldError` of the package `api`, which
api/event-endpoint.go names (`make([]FieldError, 0)`) but whose declaration is
not among the sources; by section 7 of the spec a rejection describes "the
malformed field(s)": a field and what is wrong with it. -/
structure FieldError where
  Field : String
  Error : String
deriving DecidableEq, Repr

/-- Modelled from the spec: the response the endpoint writes. The helpers
`DoErrorResponse`, `DoBadRequestResponse` and `DoAcceptedResponse` of the
package `api` are called by api/event-endpoint.go but their file is not among
the sources. Section 7 of the spec: "a client error yields a rejection
describing the malformed field(s); an infrastructure error yields a generic
failure without internal detail"; the third is the answer to an event that was
received and accepted. -/
inductive Response where
  | error
  | badRequest (errors : List String) (fieldErrors : List FieldError)
  | accepted (message : String)
deriving DecidableEq, Repr

/-! ## Observable effects -/

/-- What the pipeline does to the outside world, in program order: a log
line written through the logger of a context, and the calls on its
collaborators. -/
inductive Effect where
  | log (ctx : Context) (level : Level) (msg : String)
  | persist (ctx : Context) (event : SomeDomainEvent) (result : Option GoError)
  | generateID (id : GoString)
  | sendMessage (ctx : Context) (params : SendMessageInput)
  | putItem (ctx : Context) (params : PutItemInput)
  | receiveInboundEvent (ctx : Context) (source : GoString) (message : GoString)
  | respond (response : Response)
deriving DecidableEq, Repr

/-- The context an effect happened under, for the effects of the consumer. -/
def Effect.ctx : Effect → Context
  | .log ctx _ _ => ctx
  | .persist ctx _ _ => ctx
  | .sendMessage ctx _ => ctx
  | .putItem ctx _ => ctx
  | .receiveInboundEvent ctx _ _ => ctx
  | .generateID _ => []
  | .respond _ => []

/-- The `PersistEvent` call an effect is, if it is one: context and event. -/
def Effect.persistCall : Effect → Option (Context × SomeDomainEvent)
  | .persist ctx event _ => some (ctx, event)
  | _ => none

/-- Whether an effect is a `PersistEvent` call that returned `nil`. -/
def Effect.isPersisted : Effect → Bool
  | .persist _ _ none => true
  | _ => false

/-- The `SendMessage` call an effect is, if it is one. -/
def Effect.sendCall : Effect → Option (Context × SendMessageInput)
  | .sendMessage ctx params => some (ctx, params)
  | _ => none

/-- The `PutItem` call an effect is, if it is one. -/
def Effect.putCall : Effect → Option (Context × PutItemInput)
  | .putItem ctx params => some (ctx, params)
  | _ => none

/-- The identity an effect generated, if it is a call of the identity
generator. -/
def Effect.generated : Effect → Option GoString
  | .generateID id => some id
  | _ => none

/-- The `ReceiveInboundEvent` call an effect is, if it is one: context,
source and message. -/
def Effect.receiveCall : Effect → Option (Context × GoString × GoString)
  | .receiveInboundEvent ctx source message => some (ctx, source, message)
  | _ => none

/-- The response an effect wrote, if it wrote one. -/
def Effect.response : Effect → Option Response
  | .respond r => some r
  | _ => none

/-! ## The SQS batch consumer (cmd/sqs-consumer/main.go) -/

/-- The struct `events.SQSMessageAttribute`, the fields the handler reads. -/
structure SQSMessageAttribute where
  StringValue : Option String
  DataType : String
deriving DecidableEq, Repr

/-- The struct `events.SQSMessage`, the fields the handler reads. -/
structure SQSMessage where
  MessageId : String
  Body : GoString
  MessageAttributes : List (String × SQSMessageAttribute)
deriving DecidableEq, Repr

/-- The struct `events.SQSEvent`; `Records` is `none` for a `nil` slice. -/
structure SQSEvent where
  Records : Option (List SQSMessage)
deriving DecidableEq, Repr

/-- The struct `events.SQSBatchItemFailure`. -/
structure SQSBatchItemFailure where
  ItemIdentifier : String
deriving DecidableEq, Repr

/-- The struct `events.SQSEventResponse`. -/
structure SQSEventResponse where
  BatchItemFailures : List SQSBatchItemFailure
deriving DecidableEq, Repr

/-- The interface `EventStore` of cmd/sqs-consumer/main.go: one method,
`PersistEvent(ctx, event) error`, on a store whose state is a `σ`. -/
structure EventStore (σ : Type) where
  PersistEvent : Context → SomeDomainEvent → σ → Option GoError × σ

/-- The variables the handler's loop works on: the response being built
(`ret`), the state of the event store, and the effects so far. -/
structure HandlerState (σ : Type) where
  ret : SQSEventResponse
  store : σ
  trace : List Effect

/-- A log call `zerolog.Ctx(ctx).<level>()...Msg(msg)`. -/
def HandlerState.log {σ : Type} (st : HandlerState σ) (ctx : Context) (level : Level)
    (msg : String) : HandlerState σ :=
  { st with trace := st.trace ++ [Effect.log ctx level msg] }

/-- The statement `ret.BatchItemFailures = append(ret.BatchItemFailures,
events.SQSBatchItemFailure{ItemIdentifier: id})`. -/
def HandlerState.appendFailure {σ : Type} (st : HandlerState σ) (id : String) :
    HandlerState σ :=
  { st with ret := { BatchItemFailures := st.ret.BatchItemFailures ++ [{ ItemIdentifier := id }] } }

/-- The function `xray.Capture(ctx, name, fn)`: it runs `fn` once, under a
context derived from `ctx` (the trace sub-segment it adds is not modelled), and
returns what `fn` returns. -/
def xrayCapture {α : Type} (ctx : Context) (_name : String) (fn : Context → α) : α :=
  fn ctx

/-- The closure handed to `xray.Capture` in `NewHandler` (lines 105-125):
decode the body, persist the event, and add the message to the failures when
either step fails. `unmarshal` is `json.Unmarshal` into a `SomeDomainEvent`. -/
def processEvent {σ : Type} (unmarshal : GoString → Except GoError SomeDomainEvent)
    (eventStore : EventStore σ) (ev : SQSMessage) (ctx : Context)
    (st : HandlerState σ) : Option GoError × HandlerState σ :=
  match unmarshal ev.Body with
  | .error err =>
    let st := st.log ctx .error "error unmarshalling event"
    let st := st.appendFailure ev.MessageId
    (some err, st)
  | .ok event =>
    let (res, store) := eventStore.PersistEvent ctx event st.store
    let st := { st with store := store, trace := st.trace ++ [Effect.persist ctx event res] }
    match res with
    | some err =>
      let st := st.log ctx .error "error persisting event"
      let st := st.appendFailure ev.MessageId
      (some err, st)
    | none => (none, st)

/-- The per-message context of the loop (lines 95-100): `ctx := ctx`, then
the correlation identifier of the message is bound when the message has the
attribute and its string value is not `nil`. -/
def messageContext (ctx : Context) (ev : SQSMessage) : Context :=
  match ev.MessageAttributes.lookup CorrelationIDAttribute with
  | some correlationIDAttr =>
    match correlationIDAttr.StringValue with
    | some v => correlation.WithContext ctx v
    | none => ctx
  | none => ctx

/-- The body of the loop `for _, ev := range request.Records` (lines 93-126).
The error `xray.Capture` returns is dropped (`_ =`). -/
def loopBody {σ : Type} (unmarshal : GoString → Except GoError SomeDomainEvent)
    (eventStore : EventStore σ) (ctx : Context) (st : HandlerState σ) (ev : SQSMessage) :
    HandlerState σ :=
  let ctx := messageContext ctx ev
  let st := st.log ctx .info "processing event"
  (xrayCapture ctx "processEvent" (fun ctx => processEvent unmarshal eventStore ev ctx) st).2

/-- What a call of the handler gives: the two values it returns, the state
the event store is left in, and the effects of the call. -/
structure HandlerResult (σ : Type) where
  response : SQSEventResponse
  err : Option GoError
  store : σ
  trace : List Effect

/-- The function returned by `NewHandler(logger, eventStore)` (lines 85-131),
applied to a context, a request and the state of the event store. Ranging over
a `nil` slice runs the loop body zero times. -/
def NewHandler {σ : Type} (unmarshal : GoString → Except GoError SomeDomainEvent)
    (logger : Logger) (eventStore : EventStore σ)
    (ctx : Context) (request : SQSEvent) (store : σ) : HandlerResult σ :=
  let ctx := logger.WithContext ctx
  let st : HandlerState σ := { ret := { BatchItemFailures := [] }, store := store, trace := [] }
  let st := st.log ctx .debug "processing inbound request"
  let st := (request.Records.getD []).foldl (loopBody unmarshal eventStore ctx) st
  let st := st.log ctx .trace "returning response"
  { response := st.ret, err := none, store := st.store, trace := st.trace }

/-- The identifiers listed in a response, in order. -/
def failedIds (resp : SQSEventResponse) : List String :=
  resp.BatchItemFailures.map (·.ItemIdentifier)

/-- The loop state before the first message: nothing failed, nothing done. -/
def HandlerState.fresh {σ : Type} (store : σ) : HandlerState σ :=
  { ret := { BatchItemFailures := [] }, store := store, trace := [] }

/-- The loop of the handler, from a given loop state. -/
def runLoop {σ : Type} (unmarshal : GoString → Except GoError SomeDomainEvent)
    (eventStore : EventStore σ) (ctx : Context) (st : HandlerState σ)
    (records : List SQSMessage) : HandlerState σ :=
  records.foldl (loopBody unmarshal eventStore ctx) st

/-! ### The batch contract in the words of the spec -/

/-- The outcome of one message of a batch: the spec's `BatchItemOutcome`
flag, with the reason of a failure. -/
inductive Outcome where
  | decodeFailed
  | persistFailed
  | persisted
deriving DecidableEq, Repr

/-- Whether an outcome is a failure, so that the message must be retried. -/
def Outcome.isFailure : Outcome → Bool
  | .persisted => false
  | _ => true

/-- The outcomes of a batch as section 4.2 of the spec words them: per
message, in order, derive the per-message context, decode the body (a decode
failure is a failure outcome), persist the decoded event (a persist error is a
failure outcome, otherwise the outcome is a success), and go on to the next
message with the store as the call left it. -/
def batchOutcomes {σ : Type} (unmarshal : GoString → Except GoError SomeDomainEvent)
    (eventStore : EventStore σ) (ctx : Context) : List SQSMessage → σ → List Outcome
  | [], _ => []
  | ev :: rest, store =>
    match unmarshal ev.Body with
    | .error _ => Outcome.decodeFailed :: batchOutcomes unmarshal eventStore ctx rest store
    | .ok event =>
      match eventStore.PersistEvent (messageContext ctx ev) event store with
      | (some _, store) =>
        Outcome.persistFailed :: batchOutcomes unmarshal eventStore ctx rest store
      | (none, store) =>
        Outcome.persisted :: batchOutcomes unmarshal eventStore ctx rest store

/-- The messages of a batch that have a failure outcome, in batch order. -/
def failedMessages (records : List SQSMessage) (outcomes : List Outcome) : List SQSMessage :=
  ((records.zip outcomes).filter (fun p => p.2.isFailure)).map (·.1)

/-- The messages of a batch that have a success outcome, in batch order. -/
def persistedMessages (records : List SQSMessage) (outcomes : List Outcome) :
    List SQSMessage :=
  ((records.zip outcomes).filter (fun p => !p.2.isFailure)).map (·.1)

/-- What each message of a batch adds, one entry per message and in batch
order: the loop body run on a fresh loop state, from the store as the message
before left it. The entry holds the failures and the effects of that one
message, and the store after it. -/
def recordRuns {σ : Type} (unmarshal : GoString → Except GoError SomeDomainEvent)
    (eventStore : EventStore σ) (ctx : Context) : List SQSMessage → σ → List (HandlerState σ)
  | [], _ => []
  | ev :: rest, store =>
    loopBody unmarshal eventStore ctx (.fresh store) ev ::
      recordRuns unmarshal eventStore ctx rest
        (loopBody unmarshal eventStore ctx (.fresh store) ev).store

/-- The batch of a request: its records, none for a `nil` slice. -/
def SQSEvent.batch (request : SQSEvent) : List SQSMessage :=
  request.Records.getD []

/-- The `PersistEvent` calls a batch must lead to: one per message whose body
decodes, with the decoded event and under the context of the message, in batch
order. -/
def expectedPersistCalls (unmarshal : GoString → Except GoError SomeDomainEvent)
    (ctx : Context) (records : List SQSMessage) : List (Context × SomeDomainEvent) :=
  records.filterMap (fun ev =>
    match unmarshal ev.Body with
    | .ok event => some (messageContext ctx ev, event)
    | .error _ => none)

/-- Whether the body of a message decodes. -/
def decodes (unmarshal : GoString → Except GoError SomeDomainEvent) (ev : SQSMessage) : Bool :=
  match unmarshal ev.Body with
  | .ok _ => true
  | .error _ => false

/-! ## The event receiver (example/event-receiver.go) -/

/-- The type `IDGenerator`, a `func() string`: a call gives a string and
moves the state `γ` of whatever the function draws from. -/
abbrev IDGenerator (γ : Type) := γ → GoString × γ

/-- The interface `SQSClient`: one method, `SendMessage`, on a queue service
whose state is a `κ`. The output of a successful call is not looked at by the
receiver (it is only logged) and is left out. -/
structure SQSClient (κ : Type) where
  SendMessage : Context → SendMessageInput → κ → Option GoError × κ

/-- The struct `EventReceiver`. -/
structure EventReceiver (κ γ : Type) where
  client : SQSClient κ
  targetQueueURL : String
  idGenerator : IDGenerator γ

/-- The type `EventReceiverOption`, a `func(er *EventReceiver)`: the option
updates the receiver it is given. -/
abbrev EventReceiverOption (κ γ : Type) := EventReceiver κ γ → EventReceiver κ γ

/-- The function `WithIDGenerator`. -/
def WithIDGenerator {κ γ : Type} (idGenerator : IDGenerator γ) : EventReceiverOption κ γ :=
  fun er => { er with idGenerator := idGenerator }

/-- The function `NewEventReceiver`; `uuidNewString` is `uuid.NewString`, the
default identity generator. The options are applied in the order given. -/
def NewEventReceiver {κ γ : Type} (uuidNewString : IDGenerator γ) (client : SQSClient κ)
    (targetQueueURL : String) (options : List (EventReceiverOption κ γ)) : EventReceiver κ γ :=
  let ret : EventReceiver κ γ :=
    { client := client, targetQueueURL := targetQueueURL, idGenerator := uuidNewString }
  options.foldl (fun ret o => o ret) ret

/-- What a call of `ReceiveInboundEvent` gives: the error it returns, the
states the identity generator and the queue service are left in, and the
effects of the call. -/
structure ReceiveResult (κ γ : Type) where
  err : Option GoError
  gen : γ
  client : κ
  trace : List Effect

/-- The `sqs.SendMessageInput` that `ReceiveInboundEvent` builds (lines
63-73) for a payload, under a context. -/
def EventReceiver.sendMessageInput {κ γ : Type} (e : EventReceiver κ γ) (ctx : Context)
    (payload : GoString) : SendMessageInput :=
  { MessageBody := some payload
    QueueUrl := some e.targetQueueURL
    DelaySeconds := 0
    MessageAttributes :=
      [(CorrelationIDAttribute,
        { DataType := some "String"
          StringValue := some (correlation.FromContext ctx) })] }

/-- The method `EventReceiver.ReceiveInboundEvent` (lines 53-79). `marshal`
is `json.Marshal` on a `SomeDomainEvent`. -/
def EventReceiver.ReceiveInboundEvent {κ γ : Type}
    (marshal : SomeDomainEvent → Except GoError GoString) (e : EventReceiver κ γ)
    (ctx : Context) (source message : GoString) (gen : γ) (client : κ) : ReceiveResult κ γ :=
  let (id, gen) := e.idGenerator gen
  let toPublish : SomeDomainEvent := { ID := id, Message := message, Source := source }
  match marshal toPublish with
  | .error err =>
    { err := some (fmtErrorfW "error marshalling event: " err)
      gen := gen, client := client
      trace := [Effect.generateID id] }
  | .ok payload =>
    let params : SendMessageInput := e.sendMessageInput ctx payload
    let (res, client) := e.client.SendMessage ctx params client
    match res with
    | some err =>
      { err := some (fmtErrorfW "error publishing event: " err)
        gen := gen, client := client
        trace := [Effect.generateID id, Effect.sendMessage ctx params] }
    | none =>
      { err := none
        gen := gen, client := client
        trace := [Effect.generateID id, Effect.sendMessage ctx params,
          Effect.log ctx .trace "published event"] }

/-! ## The event store (example/event.go) -/

/-- The interface `DynamoClient`: one method, `PutItem`, on a table service
whose state is a `δ`. The output of a successful call is only logged and is
left out. -/
structure DynamoClient (δ : Type) where
  PutItem : Context → PutItemInput → δ → Option GoError × δ

/-- The struct `DynamoStore`. -/
structure DynamoStore (δ : Type) where
  client : DynamoClient δ
  targetTable : String

/-- The function `NewDynamoStore`. -/
def NewDynamoStore {δ : Type} (client : DynamoClient δ) (targetTable : String) :
    DynamoStore δ :=
  { client := client, targetTable := targetTable }

/-- What a call of `DynamoStore.PersistEvent` gives: the error it returns,
the state the table service is left in, and the effects of the call. -/
structure PersistResult (δ : Type) where
  err : Option GoError
  client : δ
  trace : List Effect

/-- The method `DynamoStore.PersistEvent` (lines 32-46). `marshalMap` is
`attributevalue.MarshalMap` on a `SomeDomainEvent`. -/
def DynamoStore.PersistEvent {δ : Type}
    (marshalMap : SomeDomainEvent → Except GoError (List (String × AttributeValue)))
    (d : DynamoStore δ) (ctx : Context) (event : SomeDomainEvent) (client : δ) :
    PersistResult δ :=
  match marshalMap event with
  | .error err =>
    { err := some (fmtErrorfW "error marshalling event: " err), client := client, trace := [] }
  | .ok av =>
    let params : PutItemInput := { TableName := some d.targetTable, Item := av }
    let (res, client) := d.client.PutItem ctx params client
    match res with
    | some err =>
      { err := some (fmtErrorfW "error persisting event: " err)
        client := client
        trace := [Effect.putItem ctx params] }
    | none =>
      { err := none
        client := client
        trace := [Effect.putItem ctx params, Effect.log ctx .trace "persisted event"] }

/-- The call `attributevalue.MarshalMap(event)` for a `SomeDomainEvent`. -/
def SomeDomainEvent.MarshalMap (event : SomeDomainEvent) :
    Except GoError (List (String × AttributeValue)) :=
  attributevalue.MarshalMap SomeDomainEvent.fields event.values

/-! ## The HTTP endpoint (api/event-endpoint.go) -/

/-- The interface `EventReceiver` of the package `api`: one method,
`ReceiveInboundEvent(ctx, source, message) error`, on a receiver whose state is
a `ρ`. -/
structure api.EventReceiver (ρ : Type) where
  ReceiveInboundEvent : Context → GoString → GoString → ρ → Option GoError × ρ

/-- An `*http.Request` as the endpoint reads it: its context, and what
`io.ReadAll(request.Body)` returns, the body or an error. -/
structure Request where
  ctx : Context
  Body : Except GoError GoString

/-- What a call of the endpoint gives: the state the receiver is left in and
the effects of the call, the response written being one of them. -/
structure EndpointResult (ρ : Type) where
  receiver : ρ
  trace : List Effect

/-- The handler returned by `NewEventReceiverEndpoint(er)` (lines 22-49).
`unmarshal` is `json.Unmarshal` into an `InboundEventPayload`. -/
def NewEventReceiverEndpoint {ρ : Type}
    (unmarshal : GoString → Except GoError InboundEventPayload) (er : api.EventReceiver ρ)
    (request : Request) (receiver : ρ) : EndpointResult ρ :=
  let ctx := request.ctx
  match request.Body with
  | .error _ =>
    { receiver := receiver
      trace := [Effect.log ctx .error "error reading request body while receiving event",
        Effect.respond Response.error] }
  | .ok body =>
    match unmarshal body with
    | .error err =>
      { receiver := receiver
        trace := [Effect.log ctx .warn "error unmarshalling request",
          Effect.respond
            (Response.badRequest ["Unable to process request body: " ++ err.Error] [])] }
    | .ok payload =>
      let (err, receiver) := er.ReceiveInboundEvent ctx payload.Source payload.Message receiver
      match err with
      | some _ =>
        { receiver := receiver
          trace := [Effect.receiveInboundEvent ctx payload.Source payload.Message,
            Effect.log ctx .error "error receiving event",
            Effect.respond Response.error] }
      | none =>
        { receiver := receiver
          trace := [Effect.receiveInboundEvent ctx payload.Source payload.Message,
            Effect.respond (Response.accepted "event received and accepted")] }

/-- Whether a JSON value is an object of the shape
`{"message": string, "source": string}`: an object with exactly these two
members, in either order, each a string. -/
def hasPayloadShape : json.Value → Bool
  | .object [("message", .string _), ("source", .string _)] => true
  | .object [("source", .string _), ("message", .string _)] => true
  | _ => false

/-- Whether a request body is a JSON text of the shape
`{"message": string, "source": string}`. -/
def bodyHasPayloadShape (body : GoString) : Bool :=
  match json.parse body with
  | some v => hasPayloadShape v
  | none => false

/-! ## Collaborators for runs on concrete inputs -/

/-- An event store that keeps the events it is given, in order, and fails
for none. -/
def memoryStore : EventStore (List SomeDomainEvent) :=
  { PersistEvent := fun _ event events => (none, events ++ [event]) }

/-- An event store that accepts every event but those whose message is
`"poison"`, for which it returns an error. -/
def pickyStore : EventStore (List SomeDomainEvent) :=
  { PersistEvent := fun _ event events =>
      if event.Message = GoString.ofString "poison" then (some (.leaf "store unreachable"), events)
      else (none, events ++ [event]) }

/-- A queue service that keeps the requests it is sent and fails for none. -/
def memoryQueue : SQSClient (List SendMessageInput) :=
  { SendMessage := fun _ params sent => (none, sent ++ [params]) }

/-- A queue service that is unreachable: every request fails. -/
def downQueue : SQSClient (List SendMessageInput) :=
  { SendMessage := fun _ _ sent => (some (.leaf "queue unreachable"), sent) }

/-- A table service that keeps the requests it is sent and fails for none. -/
def memoryTable : DynamoClient (List PutItemInput) :=
  { PutItem := fun _ params puts => (none, puts ++ [params]) }

/-- A table service that is unreachable: every request fails. -/
def downTable : DynamoClient (List PutItemInput) :=
  { PutItem := fun _ _ puts => (some (.leaf "table unreachable"), puts) }

/-- An identity generator that counts: its identities are `"id-"`,
`"id-i"`, `"id-ii"` and so on. -/
def countingIDs : IDGenerator Nat :=
  fun n => (GoString.ofString (String.mk ('i' :: 'd' :: '-' :: List.replicate n 'i')), n + 1)

/-- A receiver behind the endpoint that keeps the pairs of source and message
it is given and fails for none. -/
def memoryReceiver : api.EventReceiver (List (GoString × GoString)) :=
  { ReceiveInboundEvent := fun _ source message got => (none, got ++ [(source, message)]) }

/-- A well-formed queue message: the event `e-1` from `web` saying `hello`,
with the correlation identifier `c-1`. -/
def goodMessage : SQSMessage :=
  { MessageId := "m-1"
    Body := GoString.ofString
      "\x7b\"id\":\"e-1\",\"message\":\"hello\",\"source\":\"web\"\x7d"
    MessageAttributes := [("correlationID", { StringValue := some "c-1", DataType := "String" })] }

/-- A queue message whose body is not JSON, without attributes. -/
def malformedMessage : SQSMessage :=
  { MessageId := "m-2", Body := GoString.ofString "not json", MessageAttributes := [] }

/-- A well-formed queue message that the picky store rejects, whose
correlation attribute has no string value. -/
def poisonMessage : SQSMessage :=
  { MessageId := "m-3"
    Body := GoString.ofString
      "\x7b\"id\":\"e-3\",\"message\":\"poison\",\"source\":\"web\"\x7d"
    MessageAttributes := [("correlationID", { StringValue := none, DataType := "Binary" })] }

/-- A batch of three messages: a good one, a malformed one and one the picky
store rejects. -/
def exampleBatch : SQSEvent :=
  { Records := some [goodMessage, malformedMessage, poisonMessage] }

/-- A batch in which the same event arrives twice, with a malformed message
in between. -/
def duplicateBatch : SQSEvent :=
  { Records := some [goodMessage, malformedMessage, goodMessage] }

/-! ### Lemmas on the loop -/

section Loop

variable {σ : Type} (unmarshal : GoString → Except GoError SomeDomainEvent)
  (eventStore : EventStore σ) (ctx : Context)

theorem loopBody_frame (st : HandlerState σ) (ev : SQSMessage) :
    loopBody unmarshal eventStore ctx st ev =
      { ret := { BatchItemFailures := st.ret.BatchItemFailures ++
          (loopBody unmarshal eventStore ctx (.fresh st.store) ev).ret.BatchItemFailures }
        store := (loopBody unmarshal eventStore ctx (.fresh st.store) ev).store
        trace := st.trace ++ (loopBody unmarshal eventStore ctx (.fresh st.store) ev).trace } := by
  cases hu : unmarshal ev.Body with
  | error err =>
    simp [loopBody, xrayCapture, processEvent, HandlerState.log, HandlerState.appendFailure,
      HandlerState.fresh, hu]
  | ok event =>
    rcases hp : eventStore.PersistEvent (messageContext ctx ev) event st.store with ⟨_ | err, s⟩
    all_goals
      simp [loopBody, xrayCapture, processEvent, HandlerState.log, HandlerState.appendFailure,
        HandlerState.fresh, hu, hp]

theorem runLoop_frame (records : List SQSMessage) (st : HandlerState σ) :
    runLoop unmarshal eventStore ctx st records =
      { ret := { BatchItemFailures := st.ret.BatchItemFailures ++
          (runLoop unmarshal eventStore ctx (.fresh st.store) records).ret.BatchItemFailures }
        store := (runLoop unmarshal eventStore ctx (.fresh st.store) records).store
        trace := st.trace ++ (runLoop unmarshal eventStore ctx (.fresh st.store) records).trace } := by
  induction records generalizing st with
  | nil => simp [runLoop, HandlerState.fresh]
  | cons ev rest ih =>
    have h1 := ih (loopBody unmarshal eventStore ctx st ev)
    have h2 := ih (loopBody unmarshal eventStore ctx (.fresh st.store) ev)
    simp only [runLoop, List.foldl_cons] at h1 h2 ⊢
    rw [h1, h2]
    rw [loopBody_frame unmarshal eventStore ctx st ev]
    simp [HandlerState.fresh]

theorem runLoop_fresh_cons (ev : SQSMessage) (rest : List SQSMessage) (store : σ) :
    runLoop unmarshal eventStore ctx (.fresh store) (ev :: rest) =
      { ret := { BatchItemFailures :=
          (loopBody unmarshal eventStore ctx (.fresh store) ev).ret.BatchItemFailures ++
          (runLoop unmarshal eventStore ctx
            (.fresh (loopBody unmarshal eventStore ctx (.fresh store) ev).store)
            rest).ret.BatchItemFailures }
        store := (runLoop unmarshal eventStore ctx
            (.fresh (loopBody unmarshal eventStore ctx (.fresh store) ev).store) rest).store
        trace := (loopBody unmarshal eventStore ctx (.fresh store) ev).trace ++
          (runLoop unmarshal eventStore ctx
            (.fresh (loopBody unmarshal eventStore ctx (.fresh store) ev).store) rest).trace } := by
  have h := runLoop_frame unmarshal eventStore ctx rest
    (loopBody unmarshal eventStore ctx (.fresh store) ev)
  simp only [runLoop, List.foldl_cons] at h ⊢
  exact h

/-- The loop adds up what the messages add, one after the other. -/
theorem runLoop_eq_recordRuns (records : List SQSMessage) (store : σ) :
    (runLoop unmarshal eventStore ctx (.fresh store) records).ret.BatchItemFailures =
        (recordRuns unmarshal eventStore ctx records store).flatMap (·.ret.BatchItemFailures) ∧
      (runLoop unmarshal eventStore ctx (.fresh store) records).trace =
        (recordRuns unmarshal eventStore ctx records store).flatMap (·.trace) := by
  induction records generalizing store with
  | nil => simp [runLoop, recordRuns, HandlerState.fresh]
  | cons ev rest ih =>
    rw [runLoop_fresh_cons]
    simp only [recordRuns, List.flatMap_cons]
    exact ⟨by rw [(ih _).1], by rw [(ih _).2]⟩

theorem recordRuns_length (records : List SQSMessage) (store : σ) :
    (recordRuns unmarshal eventStore ctx records store).length = records.length := by
  induction records generalizing store with
  | nil => rfl
  | cons ev rest ih => simp [recordRuns, ih]

/-- A property every run of the loop body has, every message of a batch has. -/
theorem recordRuns_forall₂ (P : SQSMessage → HandlerState σ → Prop)
    (h : ∀ (store : σ) (ev : SQSMessage),
      P ev (loopBody unmarshal eventStore ctx (.fresh store) ev))
    (records : List SQSMessage) (store : σ) :
    List.Forall₂ P records (recordRuns unmarshal eventStore ctx records store) := by
  induction records generalizing store with
  | nil => exact List.Forall₂.nil
  | cons ev rest ih => exact List.Forall₂.cons (h store ev) (ih _)

/-- The handler in terms of what each message adds. -/
theorem NewHandler_eq (logger : Logger) (ctx₀ : Context) (request : SQSEvent) (store : σ) :
    (NewHandler unmarshal logger eventStore ctx₀ request store).response.BatchItemFailures =
        (recordRuns unmarshal eventStore (logger.WithContext ctx₀) request.batch store).flatMap
          (·.ret.BatchItemFailures) ∧
      (NewHandler unmarshal logger eventStore ctx₀ request store).trace =
        Effect.log (logger.WithContext ctx₀) .debug "processing inbound request" ::
          ((recordRuns unmarshal eventStore (logger.WithContext ctx₀) request.batch store).flatMap
            (·.trace) ++
          [Effect.log (logger.WithContext ctx₀) .trace "returning response"]) := by
  have hf := runLoop_frame unmarshal eventStore (logger.WithContext ctx₀) request.batch
    ((HandlerState.fresh store).log (logger.WithContext ctx₀) .debug "processing inbound request")
  have hr := runLoop_eq_recordRuns unmarshal eventStore (logger.WithContext ctx₀)
    request.batch store
  simp only [runLoop, HandlerState.log, HandlerState.fresh, SQSEvent.batch] at hf hr
  simp only [NewHandler, HandlerState.log, SQSEvent.batch]
  rw [hf]
  simp only [HandlerState.fresh, List.nil_append] at hr ⊢
  exact ⟨hr.1, by rw [hr.2]; simp⟩

/-- What one run of the loop body adds, by the three ways it can go. -/
theorem loopBody_fresh (store : σ) (ev : SQSMessage) :
    (∃ err, unmarshal ev.Body = .error err ∧
      loopBody unmarshal eventStore ctx (.fresh store) ev =
        { ret := { BatchItemFailures := [{ ItemIdentifier := ev.MessageId }] }
          store := store
          trace := [Effect.log (messageContext ctx ev) .info "processing event",
            Effect.log (messageContext ctx ev) .error "error unmarshalling event"] }) ∨
    (∃ event err store', unmarshal ev.Body = .ok event ∧
      eventStore.PersistEvent (messageContext ctx ev) event store = (some err, store') ∧
      loopBody unmarshal eventStore ctx (.fresh store) ev =
        { ret := { BatchItemFailures := [{ ItemIdentifier := ev.MessageId }] }
          store := store'
          trace := [Effect.log (messageContext ctx ev) .info "processing event",
            Effect.persist (messageContext ctx ev) event (some err),
            Effect.log (messageContext ctx ev) .error "error persisting event"] }) ∨
    (∃ event store', unmarshal ev.Body = .ok event ∧
      eventStore.PersistEvent (messageContext ctx ev) event store = (none, store') ∧
      loopBody unmarshal eventStore ctx (.fresh store) ev =
        { ret := { BatchItemFailures := [] }
          store := store'
          trace := [Effect.log (messageContext ctx ev) .info "processing event",
            Effect.persist (messageContext ctx ev) event none] }) := by
  cases hu : unmarshal ev.Body with
  | error err =>
    refine Or.inl ⟨err, rfl, ?_⟩
    simp [loopBody, xrayCapture, processEvent, HandlerState.log, HandlerState.appendFailure,
      HandlerState.fresh, hu]
  | ok event =>
    rcases hp : eventStore.PersistEvent (messageContext ctx ev) event store with ⟨_ | err, s⟩
    · refine Or.inr (Or.inr ⟨event, s, rfl, hp, ?_⟩)
      simp [loopBody, xrayCapture, processEvent, HandlerState.log, HandlerState.fresh, hu, hp]
    · refine Or.inr (Or.inl ⟨event, err, s, rfl, hp, ?_⟩)
      simp [loopBody, xrayCapture, processEvent, HandlerState.log, HandlerState.appendFailure,
        HandlerState.fresh, hu, hp]

theorem failedMessages_cons (ev : SQSMessage) (rest : List SQSMessage) (o : Outcome)
    (os : List Outcome) :
    failedMessages (ev :: rest) (o :: os) =
      if o.isFailure then ev :: failedMessages rest os else failedMessages rest os := by
  cases h : o.isFailure <;> simp [failedMessages, List.filter_cons, h]

theorem persistedMessages_cons (ev : SQSMessage) (rest : List SQSMessage) (o : Outcome)
    (os : List Outcome) :
    persistedMessages (ev :: rest) (o :: os) =
      if o.isFailure then persistedMessages rest os else ev :: persistedMessages rest os := by
  cases h : o.isFailure <;> simp [persistedMessages, List.filter_cons, h]

theorem batchOutcomes_length (records : List SQSMessage) (store : σ) :
    (batchOutcomes unmarshal eventStore ctx records store).length = records.length := by
  induction records generalizing store with
  | nil => rfl
  | cons ev rest ih =>
    rcases loopBody_fresh unmarshal eventStore ctx store ev with
      ⟨err, hu, _⟩ | ⟨event, err, s, hu, hp, _⟩ | ⟨event, s, hu, hp, _⟩
    · simp [batchOutcomes, hu, ih]
    · simp [batchOutcomes, hu, hp, ih]
    · simp [batchOutcomes, hu, hp, ih]

/-- The failures the loop lists are the messages with a failure outcome. -/
theorem recordRuns_failures (records : List SQSMessage) (store : σ) :
    (recordRuns unmarshal eventStore ctx records store).flatMap (·.ret.BatchItemFailures) =
      (failedMessages records (batchOutcomes unmarshal eventStore ctx records store)).map
        (fun ev => { ItemIdentifier := ev.MessageId }) := by
  induction records generalizing store with
  | nil => simp [recordRuns, failedMessages]
  | cons ev rest ih =>
    rcases loopBody_fresh unmarshal eventStore ctx store ev with
      ⟨err, hu, hl⟩ | ⟨event, err, s, hu, hp, hl⟩ | ⟨event, s, hu, hp, hl⟩
    · simp [recordRuns, batchOutcomes, hu, hl, ih, failedMessages_cons, Outcome.isFailure]
    · simp [recordRuns, batchOutcomes, hu, hp, hl, ih, failedMessages_cons, Outcome.isFailure]
    · simp [recordRuns, batchOutcomes, hu, hp, hl, ih, failedMessages_cons, Outcome.isFailure]

/-- The calls that returned `nil` are those of the messages with a success
outcome. -/
theorem recordRuns_persisted (records : List SQSMessage) (store : σ) :
    (((recordRuns unmarshal eventStore ctx records store).flatMap (·.trace)).filter
        Effect.isPersisted).length =
      (persistedMessages records (batchOutcomes unmarshal eventStore ctx records store)).length := by
  induction records generalizing store with
  | nil => simp [recordRuns, persistedMessages]
  | cons ev rest ih =>
    rcases loopBody_fresh unmarshal eventStore ctx store ev with
      ⟨err, hu, hl⟩ | ⟨event, err, s, hu, hp, hl⟩ | ⟨event, s, hu, hp, hl⟩
    · simp [recordRuns, batchOutcomes, hu, hl, ih, persistedMessages_cons,
        Outcome.isFailure, List.filter_cons, Effect.isPersisted]
    · simp [recordRuns, batchOutcomes, hu, hp, hl, ih, persistedMessages_cons,
        Outcome.isFailure, List.filter_cons, Effect.isPersisted]
    · simp [recordRuns, batchOutcomes, hu, hp, hl, ih, persistedMessages_cons,
        Outcome.isFailure, List.filter_cons, Effect.isPersisted]

/-- The `PersistEvent` calls of the loop are those of the messages that
decode. -/
theorem recordRuns_persistCalls (records : List SQSMessage) (store : σ) :
    ((recordRuns unmarshal eventStore ctx records store).flatMap (·.trace)).filterMap
        Effect.persistCall =
      expectedPersistCalls unmarshal ctx records := by
  induction records generalizing store with
  | nil => simp [recordRuns, expectedPersistCalls]
  | cons ev rest ih =>
    have ih' := ih
    simp only [expectedPersistCalls] at ih' ⊢
    rcases loopBody_fresh unmarshal eventStore ctx store ev with
      ⟨err, hu, hl⟩ | ⟨event, err, s, hu, hp, hl⟩ | ⟨event, s, hu, hp, hl⟩
    all_goals
      simp [recordRuns, hu, hl, ih', List.filterMap_cons, List.filterMap_append,
        Effect.persistCall]

theorem failed_persisted_length (records : List SQSMessage) (outcomes : List Outcome) :
    (failedMessages records outcomes).length + (persistedMessages records outcomes).length =
      (records.zip outcomes).length := by
  induction records generalizing outcomes with
  | nil => simp [failedMessages, persistedMessages]
  | cons ev rest ih =>
    cases outcomes with
    | nil => simp [failedMessages, persistedMessages]
    | cons o os =>
      have := ih os
      rw [failedMessages_cons, persistedMessages_cons]
      cases o.isFailure <;>
        simp only [if_true, if_false, Bool.false_eq_true, List.length_cons,
          List.zip_cons_cons] <;> omega

theorem mem_of_mem_failedMessages {records : List SQSMessage} {outcomes : List Outcome}
    {ev : SQSMessage} (h : ev ∈ failedMessages records outcomes) : ev ∈ records := by
  simp only [failedMessages, List.mem_map, List.mem_filter] at h
  obtain ⟨p, ⟨hp, _⟩, rfl⟩ := h
  exact (List.of_mem_zip hp).1

theorem mem_of_mem_persistedMessages {records : List SQSMessage} {outcomes : List Outcome}
    {ev : SQSMessage} (h : ev ∈ persistedMessages records outcomes) : ev ∈ records := by
  simp only [persistedMessages, List.mem_map, List.mem_filter] at h
  obtain ⟨p, ⟨hp, _⟩, rfl⟩ := h
  exact (List.of_mem_zip hp).1

/-- When the messages of a batch have pairwise distinct identifiers, no
message with a success outcome shares its identifier with a failed one. -/
theorem persisted_not_failed (records : List SQSMessage) (outcomes : List Outcome)
    (h : (records.map (·.MessageId)).Nodup) :
    ∀ ev ∈ persistedMessages records outcomes,
      ev.MessageId ∉ (failedMessages records outcomes).map (·.MessageId) := by
  induction records generalizing outcomes with
  | nil => simp [persistedMessages]
  | cons r rest ih =>
    cases outcomes with
    | nil => simp [persistedMessages]
    | cons o os =>
      rw [List.map_cons, List.nodup_cons] at h
      obtain ⟨hr, hrest⟩ := h
      have hnot : ∀ x ∈ rest, x.MessageId ≠ r.MessageId := by
        intro x hx heq
        exact hr (heq ▸ List.mem_map_of_mem _ hx)
      intro ev hev
      rw [persistedMessages_cons] at hev
      rw [failedMessages_cons]
      cases ho : o.isFailure
      · simp only [ho, Bool.false_eq_true, if_false, List.mem_cons] at hev ⊢
        rcases hev with rfl | hev
        · intro hmem
          obtain ⟨x, hx, hxe⟩ := List.mem_map.1 hmem
          exact hnot x (mem_of_mem_failedMessages hx) hxe
        · exact ih os hrest ev hev
      · simp only [ho, if_true] at hev ⊢
        rw [List.map_cons, List.mem_cons, not_or]
        exact ⟨hnot ev (mem_of_mem_persistedMessages hev), ih os hrest ev hev⟩

/-- The identifiers the handler lists are those of the messages with a
failure outcome, in batch order. -/
theorem NewHandler_failedIds (logger : Logger) (ctx₀ : Context) (request : SQSEvent)
    (store : σ) :
    failedIds (NewHandler unmarshal logger eventStore ctx₀ request store).response =
      (failedMessages request.batch
        (batchOutcomes unmarshal eventStore (logger.WithContext ctx₀) request.batch store)).map
        (·.MessageId) := by
  rw [failedIds, (NewHandler_eq unmarshal eventStore logger ctx₀ request store).1,
    recordRuns_failures, List.map_map]
  rfl

/-- The store after the loop is the store after the `PersistEvent` calls of
the messages that decode, made one after the other. -/
theorem runLoop_store (records : List SQSMessage) (store : σ) :
    (runLoop unmarshal eventStore ctx (.fresh store) records).store =
      (expectedPersistCalls unmarshal ctx records).foldl
        (fun s call => (eventStore.PersistEvent call.1 call.2 s).2) store := by
  induction records generalizing store with
  | nil => rfl
  | cons ev rest ih =>
    rw [runLoop_fresh_cons]
    simp only [ih]
    rcases loopBody_fresh unmarshal eventStore ctx store ev with
      ⟨err, hu, hl⟩ | ⟨event, err, s, hu, hp, hl⟩ | ⟨event, s, hu, hp, hl⟩
    · simp [expectedPersistCalls, List.filterMap_cons, hu, hl]
    · simp [expectedPersistCalls, List.filterMap_cons, hu, hl, hp]
    · simp [expectedPersistCalls, List.filterMap_cons, hu, hl, hp]

/-- The store the handler leaves is the store after the `PersistEvent` calls
of the messages that decode. -/
theorem NewHandler_store (logger : Logger) (ctx₀ : Context) (request : SQSEvent) (store : σ) :
    (NewHandler unmarshal logger eventStore ctx₀ request store).store =
      (expectedPersistCalls unmarshal (logger.WithContext ctx₀) request.batch).foldl
        (fun s call => (eventStore.PersistEvent call.1 call.2 s).2) store := by
  have hf := runLoop_frame unmarshal eventStore (logger.WithContext ctx₀) request.batch
    ((HandlerState.fresh store).log (logger.WithContext ctx₀) .debug "processing inbound request")
  have hr := runLoop_store unmarshal eventStore (logger.WithContext ctx₀) request.batch store
  simp only [runLoop, HandlerState.log, HandlerState.fresh, SQSEvent.batch] at hf hr
  simp only [NewHandler, HandlerState.log, SQSEvent.batch]
  rw [hf]
  simp only [HandlerState.fresh]
  exact hr

end Loop

/-! ## The claims on the batch consumer -/

/-- Claim C1. For every batch and every event store, the identifiers the
handler returns in `BatchItemFailures` are, in batch order, the `MessageId`s of
exactly the messages whose outcome is a failure (the body does not decode, or
`PersistEvent` returns an error); each message has one outcome; every listed
identifier is the `MessageId` of a message of the batch; and when the
identifiers of the batch are pairwise distinct, the identifier of a message that
was decoded and persisted is not listed. -/
theorem C1_failures_are_the_failed_messages {σ : Type}
    (unmarshal : GoString → Except GoError SomeDomainEvent) (logger : Logger)
    (eventStore : EventStore σ) (ctx : Context) (request : SQSEvent) (store : σ) :
    (batchOutcomes unmarshal eventStore (logger.WithContext ctx) request.batch store).length =
        request.batch.length ∧
      failedIds (NewHandler unmarshal logger eventStore ctx request store).response =
        (failedMessages request.batch
          (batchOutcomes unmarshal eventStore (logger.WithContext ctx) request.batch store)).map
          (·.MessageId) ∧
      (∀ id ∈ failedIds (NewHandler unmarshal logger eventStore ctx request store).response,
        ∃ ev ∈ request.batch, ev.MessageId = id) ∧
      ((request.batch.map (·.MessageId)).Nodup →
        ∀ ev ∈ persistedMessages request.batch
            (batchOutcomes unmarshal eventStore (logger.WithContext ctx) request.batch store),
          ev.MessageId ∉
            failedIds (NewHandler unmarshal logger eventStore ctx request store).response) := by
  have hids := NewHandler_failedIds unmarshal eventStore logger ctx request store
  refine ⟨batchOutcomes_length _ _ _ _ _, hids, ?_, ?_⟩
  · intro id hid
    rw [hids] at hid
    obtain ⟨ev, hev, rfl⟩ := List.mem_map.1 hid
    exact ⟨ev, mem_of_mem_failedMessages hev, rfl⟩
  · intro hnd ev hev
    rw [hids]
    exact persisted_not_failed _ _ hnd ev hev

/-- Claim C2. For every batch and every event store, the `PersistEvent`
calls of the handler are, in batch order, one call for each message whose body
decodes, with the decoded event and under the context of that message, and no
call for a message whose body does not decode: the calls do not depend on the
event store, so not on what failed before, and there are as many calls as
messages that decode, two messages with the same event giving two calls. The
store is left as these calls, made one after the other, leave it. -/
theorem C2_persist_called_once_per_decoded_message {σ : Type}
    (unmarshal : GoString → Except GoError SomeDomainEvent) (logger : Logger)
    (eventStore : EventStore σ) (ctx : Context) (request : SQSEvent) (store : σ) :
    (NewHandler unmarshal logger eventStore ctx request store).trace.filterMap
        Effect.persistCall =
        expectedPersistCalls unmarshal (logger.WithContext ctx) request.batch ∧
      ((NewHandler unmarshal logger eventStore ctx request store).trace.filterMap
        Effect.persistCall).length = (request.batch.filter (decodes unmarshal)).length ∧
      (NewHandler unmarshal logger eventStore ctx request store).store =
        (expectedPersistCalls unmarshal (logger.WithContext ctx) request.batch).foldl
          (fun s call => (eventStore.PersistEvent call.1 call.2 s).2) store := by
  have h : (NewHandler unmarshal logger eventStore ctx request store).trace.filterMap
      Effect.persistCall =
      expectedPersistCalls unmarshal (logger.WithContext ctx) request.batch := by
    rw [(NewHandler_eq unmarshal eventStore logger ctx request store).2]
    simp [List.filterMap_cons, List.filterMap_append, Effect.persistCall,
      recordRuns_persistCalls]
  refine ⟨h, ?_, NewHandler_store unmarshal eventStore logger ctx request store⟩
  rw [h, expectedPersistCalls]
  generalize request.batch = records
  induction records with
  | nil => rfl
  | cons ev rest ih =>
    cases hu : unmarshal ev.Body <;>
      simp [List.filterMap_cons, List.filter_cons, decodes, hu, ih]

/-- Claim C3. For every batch, each message gets exactly one outcome from
the handler: what the message adds is either exactly one entry of
`BatchItemFailures`, its own `MessageId`, and no `PersistEvent` call that
returned `nil`, or no entry and exactly one such call; the response and the
effects of the handler are these additions put together in batch order. Hence
the failures and the successful persists add up to the number of messages, and
the failure list is never longer than the batch. -/
theorem C3_each_message_has_exactly_one_outcome {σ : Type}
    (unmarshal : GoString → Except GoError SomeDomainEvent) (logger : Logger)
    (eventStore : EventStore σ) (ctx : Context) (request : SQSEvent) (store : σ) :
    List.Forall₂
        (fun ev run =>
          (run.ret.BatchItemFailures = [{ ItemIdentifier := ev.MessageId }] ∧
            run.trace.filter Effect.isPersisted = []) ∨
          (run.ret.BatchItemFailures = [] ∧
            (run.trace.filter Effect.isPersisted).length = 1))
        request.batch
        (recordRuns unmarshal eventStore (logger.WithContext ctx) request.batch store) ∧
      (NewHandler unmarshal logger eventStore ctx request store).response.BatchItemFailures =
        (recordRuns unmarshal eventStore (logger.WithContext ctx) request.batch store).flatMap
          (·.ret.BatchItemFailures) ∧
      (NewHandler unmarshal logger eventStore ctx request store).trace.filter Effect.isPersisted =
        ((recordRuns unmarshal eventStore (logger.WithContext ctx) request.batch store).flatMap
          (·.trace)).filter Effect.isPersisted ∧
      (NewHandler unmarshal logger eventStore ctx request store).response.BatchItemFailures.length +
          ((NewHandler unmarshal logger eventStore ctx request store).trace.filter
            Effect.isPersisted).length = request.batch.length ∧
      (NewHandler unmarshal logger eventStore ctx request store).response.BatchItemFailures.length ≤
        request.batch.length := by
  obtain ⟨hret, htrace⟩ := NewHandler_eq unmarshal eventStore logger ctx request store
  have hfilter : (NewHandler unmarshal logger eventStore ctx request store).trace.filter
      Effect.isPersisted =
      ((recordRuns unmarshal eventStore (logger.WithContext ctx) request.batch store).flatMap
        (·.trace)).filter Effect.isPersisted := by
    rw [htrace]
    simp [List.filter_cons, List.filter_append, Effect.isPersisted]
  have hsum : (NewHandler unmarshal logger eventStore ctx request store).response.BatchItemFailures.length +
      ((NewHandler unmarshal logger eventStore ctx request store).trace.filter
        Effect.isPersisted).length = request.batch.length := by
    rw [hfilter, hret, recordRuns_failures, recordRuns_persisted, List.length_map,
      failed_persisted_length, List.length_zip, batchOutcomes_length, Nat.min_self]
  refine ⟨?_, hret, hfilter, hsum, by omega⟩
  apply recordRuns_forall₂
  intro s ev
  rcases loopBody_fresh unmarshal eventStore (logger.WithContext ctx) s ev with
    ⟨err, _, hl⟩ | ⟨event, err, s', _, _, hl⟩ | ⟨event, s', _, _, hl⟩
  · exact Or.inl (by simp [hl, List.filter_cons, Effect.isPersisted])
  · exact Or.inl (by simp [hl, List.filter_cons, Effect.isPersisted])
  · exact Or.inr (by simp [hl, List.filter_cons, Effect.isPersisted])

/-- Claim C4. For every batch of zero or more records, whatever the bodies
and whatever `PersistEvent` returns, the error the handler returns is `nil`;
a message whose body does not decode or whose `PersistEvent` call fails is
reported through `BatchItemFailures`, where its identifier is listed. -/
theorem C4_handler_returns_nil_error {σ : Type}
    (unmarshal : GoString → Except GoError SomeDomainEvent) (logger : Logger)
    (eventStore : EventStore σ) (ctx : Context) (request : SQSEvent) (store : σ) :
    (NewHandler unmarshal logger eventStore ctx request store).err = none ∧
      ∀ ev ∈ failedMessages request.batch
          (batchOutcomes unmarshal eventStore (logger.WithContext ctx) request.batch store),
        ev.MessageId ∈
          failedIds (NewHandler unmarshal logger eventStore ctx request store).response := by
  refine ⟨rfl, ?_⟩
  intro ev hev
  rw [NewHandler_failedIds unmarshal eventStore logger ctx request store]
  exact List.mem_map_of_mem _ hev

/-- Claim C5, as amended. When `Records` is `nil` the handler does not fail
the invocation: it returns a `nil` error with an empty `BatchItemFailures`,
calls `PersistEvent` not at all and leaves the store as it was, as for an empty
batch. -/
theorem C5_nil_batch_is_an_empty_batch {σ : Type}
    (unmarshal : GoString → Except GoError SomeDomainEvent) (logger : Logger)
    (eventStore : EventStore σ) (ctx : Context) (store : σ) :
    (NewHandler unmarshal logger eventStore ctx { Records := none } store).err = none ∧
      (NewHandler unmarshal logger eventStore ctx { Records := none } store).response =
        { BatchItemFailures := [] } ∧
      (NewHandler unmarshal logger eventStore ctx { Records := none } store).trace.filterMap
        Effect.persistCall = [] ∧
      (NewHandler unmarshal logger eventStore ctx { Records := none } store).store = store ∧
      NewHandler unmarshal logger eventStore ctx { Records := none } store =
        NewHandler unmarshal logger eventStore ctx { Records := some [] } store := by
  refine ⟨rfl, rfl, rfl, rfl, rfl⟩

/-- Claim C6. For every batch, everything the handler does for a message (it
logs, and it calls `PersistEvent` when the body decodes) is done under the
context of that message, which depends on the invocation context and on the
message alone, not on the messages before it: when the message has the
`correlationID` attribute with a string value, that value is bound as the
correlation identifier on top of the invocation context with the logger;
otherwise it is the invocation context with the logger, in which the handler has
bound no identifier. -/
theorem C6_message_context {σ : Type}
    (unmarshal : GoString → Except GoError SomeDomainEvent) (logger : Logger)
    (eventStore : EventStore σ) (ctx : Context) (request : SQSEvent) (store : σ) :
    List.Forall₂
        (fun ev run => run.trace ≠ [] ∧
          ∀ eff ∈ run.trace, eff.ctx = messageContext (logger.WithContext ctx) ev)
        request.batch
        (recordRuns unmarshal eventStore (logger.WithContext ctx) request.batch store) ∧
      (NewHandler unmarshal logger eventStore ctx request store).trace =
        Effect.log (logger.WithContext ctx) .debug "processing inbound request" ::
          ((recordRuns unmarshal eventStore (logger.WithContext ctx) request.batch store).flatMap
            (·.trace) ++
          [Effect.log (logger.WithContext ctx) .trace "returning response"]) ∧
      (∀ (ev : SQSMessage) (attr : SQSMessageAttribute) (v : String),
        ev.MessageAttributes.lookup CorrelationIDAttribute = some attr →
        attr.StringValue = some v →
          messageContext (logger.WithContext ctx) ev =
              correlation.WithContext (logger.WithContext ctx) v ∧
            correlation.FromContext (messageContext (logger.WithContext ctx) ev) = v) ∧
      (∀ ev : SQSMessage,
        (ev.MessageAttributes.lookup CorrelationIDAttribute = none ∨
          ∃ attr, ev.MessageAttributes.lookup CorrelationIDAttribute = some attr ∧
            attr.StringValue = none) →
          messageContext (logger.WithContext ctx) ev = logger.WithContext ctx ∧
            correlation.FromContext (messageContext (logger.WithContext ctx) ev) =
              correlation.FromContext ctx) := by
  refine ⟨?_, (NewHandler_eq unmarshal eventStore logger ctx request store).2, ?_, ?_⟩
  · apply recordRuns_forall₂
    intro s ev
    rcases loopBody_fresh unmarshal eventStore (logger.WithContext ctx) s ev with
      ⟨err, _, hl⟩ | ⟨event, err, s', _, _, hl⟩ | ⟨event, s', _, _, hl⟩
    all_goals simp [hl, Effect.ctx]
  · intro ev attr v hattr hv
    simp [messageContext, hattr, hv, correlation.WithContext, correlation.FromContext]
  · intro ev h
    rcases h with h | ⟨attr, h, hv⟩
    · simp [messageContext, h, Logger.WithContext, correlation.FromContext]
    · simp [messageContext, h, hv, Logger.WithContext, correlation.FromContext]

/-! ## Lemmas on the JSON encoding -/

namespace json

theorem hexValue_hexDigit : ∀ k : Fin 16, hexValue (hexDigit k) = some k.1 := by
  decide

theorem getu4_low (n : Nat) (h : n < 256) :
    getu4 '0' '0' (hexDigit (n / 16)) (hexDigit (n % 16)) = some n := by
  have h1 := hexValue_hexDigit ⟨n / 16, by omega⟩
  have h2 := hexValue_hexDigit ⟨n % 16, by omega⟩
  simp only at h1 h2
  have h0 : hexValue '0' = some 0 := by decide
  simp only [getu4, h0, h1, h2]
  congr 1
  omega

theorem scanString_quote (rest : List Char) : scanString ('"' :: rest) = some ([], rest) := by
  rw [scanString.eq_def]
  simp

theorem scanString_simple (e ch : Char) (rest : List Char) (he : e ≠ 'u')
    (h : simpleEscape e = some ch) :
    scanString ('\\' :: e :: rest) =
      (scanString rest).map (fun r => (Unit16.lit ch :: r.1, r.2)) := by
  rw [scanString.eq_def]
  simp [he, h]

theorem scanString_u (a b c d : Char) (n : Nat) (rest : List Char)
    (h : getu4 a b c d = some n) :
    scanString ('\\' :: 'u' :: a :: b :: c :: d :: rest) =
      (scanString rest).map (fun r => (Unit16.esc n :: r.1, r.2)) := by
  rw [scanString.eq_def]
  simp [h]

theorem scanString_lit (c : Char) (rest : List Char) (h1 : c ≠ '"') (h2 : c ≠ '\\')
    (h3 : ¬ c.toNat < 0x20) :
    scanString (c :: rest) = (scanString rest).map (fun r => (Unit16.lit c :: r.1, r.2)) := by
  rw [scanString.eq_def]
  simp [h1, h2, h3]

theorem scanString_escapeChar (c : Char) (tail : List Char) :
    scanString (escapeChar c ++ tail) =
      (scanString tail).map (fun r => (unitOf c :: r.1, r.2)) := by
  by_cases h1 : c = '"'
  · subst h1
    simpa [escapeChar, unitOf] using scanString_simple '"' '"' tail (by decide) (by decide)
  by_cases h2 : c = '\\'
  · subst h2
    simpa [escapeChar, unitOf] using scanString_simple '\\' '\\' tail (by decide) (by decide)
  by_cases h3 : c = Char.ofNat 8
  · subst h3
    simpa [escapeChar, unitOf] using
      scanString_simple 'b' (Char.ofNat 8) tail (by decide) (by decide)
  by_cases h4 : c = Char.ofNat 12
  · subst h4
    simpa [escapeChar, unitOf] using
      scanString_simple 'f' (Char.ofNat 12) tail (by decide) (by decide)
  by_cases h5 : c = '\n'
  · subst h5
    simpa [escapeChar, unitOf] using scanString_simple 'n' '\n' tail (by decide) (by decide)
  by_cases h6 : c = '\r'
  · subst h6
    simpa [escapeChar, unitOf] using scanString_simple 'r' '\r' tail (by decide) (by decide)
  by_cases h7 : c = '\t'
  · subst h7
    simpa [escapeChar, unitOf] using scanString_simple 't' '\t' tail (by decide) (by decide)
  by_cases h8 : c.toNat < 0x20 ∨ c = '<' ∨ c = '>' ∨ c = '&'
  · have hn : c.toNat < 256 := by
      rcases h8 with h | rfl | rfl | rfl
      · omega
      all_goals decide
    have := scanString_u '0' '0' (hexDigit (c.toNat / 16)) (hexDigit (c.toNat % 16)) c.toNat
      tail (getu4_low c.toNat hn)
    simpa [escapeChar, unitOf, h1, h2, h3, h4, h5, h6, h7, h8] using this
  by_cases h9 : c = Char.ofNat 0x2028
  · subst h9
    have := scanString_u '2' '0' '2' '8' 0x2028 tail (by decide)
    simpa [escapeChar, unitOf] using this
  by_cases h10 : c = Char.ofNat 0x2029
  · subst h10
    have := scanString_u '2' '0' '2' '9' 0x2029 tail (by decide)
    simpa [escapeChar, unitOf] using this
  have h8' : ¬ c.toNat < 0x20 := fun h => h8 (Or.inl h)
  have := scanString_lit c tail h1 h2 h8'
  simpa [escapeChar, unitOf, h1, h2, h3, h4, h5, h6, h7, h8, h9, h10] using this

theorem not_surrogate_toNat (c : Char) :
    isHighSurrogate c.toNat = false ∧ isLowSurrogate c.toNat = false := by
  have h := c.valid
  simp only [UInt32.isValidChar, Nat.isValidChar] at h
  have hc : c.toNat = c.val.toNat := rfl
  simp only [isHighSurrogate, isLowSurrogate, hc, Bool.and_eq_false_imp, decide_eq_true_eq,
    decide_eq_false_iff_not]
  constructor <;> intro _ <;> omega

theorem decodeUnits_unitOf_cons (c : Char) (us : List Unit16) :
    decodeUnits none (unitOf c :: us) = c :: decodeUnits none us := by
  have hs := not_surrogate_toNat c
  have hc : Char.ofNat c.toNat = c := Char.ofNat_toNat c
  unfold unitOf
  split_ifs <;> simp [decodeUnits, hs.1, hs.2, hc]

theorem scanString_escapeRune (r : GoRune) (tail : List Char) :
    scanString (escapeRune r ++ tail) =
      (scanString tail).map (fun x => (unitOfRune r :: x.1, x.2)) := by
  cases r with
  | char c => exact scanString_escapeChar c tail
  | invalid b =>
    have := scanString_u 'f' 'f' 'f' 'd' 0xFFFD tail (by decide)
    simpa [escapeRune, unitOfRune] using this

theorem scanString_escapedRunes (s : GoString) (rest : List Char) :
    scanString (s.flatMap escapeRune ++ '"' :: rest) = some (s.map unitOfRune, rest) := by
  induction s with
  | nil => simpa using scanString_quote rest
  | cons r s ih =>
    rw [List.flatMap_cons, List.append_assoc, scanString_escapeRune, ih]
    rfl

theorem decodeUnits_unitOfRune (s : GoString) :
    decodeUnits none (s.map unitOfRune) = s.map GoRune.decoded := by
  induction s with
  | nil => rfl
  | cons r s ih =>
    cases r with
    | char c =>
      rw [List.map_cons, List.map_cons, unitOfRune, decodeUnits_unitOf_cons, ih]
      rfl
    | invalid b =>
      rw [List.map_cons, List.map_cons, unitOfRune]
      have h1 : isHighSurrogate 0xFFFD = false := by decide
      have h2 : isLowSurrogate 0xFFFD = false := by decide
      simp [decodeUnits, h1, h2, ih, GoRune.decoded]

/-- The string literal the encoder wrote for a string is read back as the
string with its invalid bytes replaced by U+FFFD. -/
theorem parseString_quoted (s : GoString) (rest : List Char) :
    parseString (s.flatMap escapeRune ++ '"' :: rest) = some (s.toValidUTF8, rest) := by
  simp [parseString, scanString_escapedRunes, decodeUnits_unitOfRune, GoString.toValidUTF8]

theorem toValidUTF8_ofString (s : String) : (GoString.ofString s).toValidUTF8 = s := by
  simp [GoString.toValidUTF8, GoString.ofString, List.map_map, Function.comp_def,
    GoRune.decoded]

theorem decoded_map_char (cs : List Char) : (cs.map GoRune.char).map GoRune.decoded = cs := by
  simp [List.map_map, Function.comp_def, GoRune.decoded]

/-- A string without invalid bytes is the encoding of its text. -/
theorem ofString_toValidUTF8 (s : GoString) (h : s.isValid = true) :
    GoString.ofString s.toValidUTF8 = s := by
  induction s with
  | nil => rfl
  | cons r s ih =>
    cases r with
    | char c =>
      have hs : GoString.isValid s = true := by
        simpa [GoString.isValid] using h
      have := ih hs
      simp only [GoString.ofString, GoString.toValidUTF8, List.map_cons, GoRune.decoded] at this ⊢
      rw [this]
    | invalid b => simp [GoString.isValid] at h

theorem skipSpace_cons (c : Char) (cs : List Char) (h : isSpace c = false) :
    skipSpace (c :: cs) = c :: cs := by
  simp [skipSpace, h]

theorem parseValue_quote (fuel depth : Nat) (s : GoString) (rest : List Char) :
    parseValue (fuel + 1) depth (quote s ++ rest) = some (.string s.toValidUTF8, rest) := by
  rw [parseValue.eq_def]
  have hq : skipSpace (quote s ++ rest) = '"' :: (s.flatMap escapeRune ++ '"' :: rest) := by
    simp [quote, skipSpace_cons '"' _ (by decide)]
  simp [hq, parseString_quoted, parseScalar]

theorem parseMembers_quote (fuel depth : Nat) (k : String) (v : GoString) (c : Char)
    (rest : List Char) (hc : isSpace c = false) :
    parseMembers (fuel + 2) depth
        (quote (GoString.ofString k) ++ ':' :: (quote v ++ c :: rest)) =
      if c = ',' then
        (parseMembers (fuel + 1) depth rest).map
          (fun r => ((k, Value.string v.toValidUTF8) :: r.1, r.2))
      else if c = '}' then some ([(k, Value.string v.toValidUTF8)], rest)
      else none := by
  rw [parseMembers.eq_def]
  have hq : skipSpace (quote (GoString.ofString k) ++ ':' :: (quote v ++ c :: rest)) =
      '"' :: ((GoString.ofString k).flatMap escapeRune ++
        '"' :: ':' :: (quote v ++ c :: rest)) := by
    simp [quote, skipSpace_cons '"' _ (by decide)]
  simp [hq, parseString_quoted, skipSpace_cons ':' _ (by decide), parseValue_quote,
    skipSpace_cons c _ hc, toValidUTF8_ofString]

theorem writeMembers_cons_cons (k : String) (v : GoString) (p : String × GoString)
    (tail : List (String × GoString)) :
    writeMembers ((k, v) :: p :: tail) =
      quote (GoString.ofString k) ++ ':' :: quote v ++ ',' :: writeMembers (p :: tail) := by
  rw [writeMembers]
  exact fun h => List.cons_ne_nil _ _ h

theorem parseMembers_writeMembers (kvs : List (String × GoString)) (hne : kvs ≠ [])
    (fuel depth : Nat) (hf : kvs.length < fuel) (rest : List Char) :
    parseMembers fuel depth (writeMembers kvs ++ '}' :: rest) =
      some (kvs.map (fun p => (p.1, Value.string p.2.toValidUTF8)), rest) := by
  induction kvs generalizing fuel with
  | nil => exact absurd rfl hne
  | cons kv tail ih =>
    obtain ⟨k, v⟩ := kv
    cases tail with
    | nil =>
      obtain ⟨f, rfl⟩ : ∃ f, fuel = f + 2 := ⟨fuel - 2, by simp at hf; omega⟩
      have := parseMembers_quote f depth k v '}' rest (by decide)
      simpa [writeMembers, List.append_assoc] using this
    | cons p tail =>
      obtain ⟨f, rfl⟩ : ∃ f, fuel = f + 2 := ⟨fuel - 2, by simp at hf; omega⟩
      have h := parseMembers_quote f depth k v ',' (writeMembers (p :: tail) ++ '}' :: rest)
        (by decide)
      have ih' := ih (List.cons_ne_nil _ _) (f + 1) (by simp at hf ⊢; omega)
      rw [writeMembers_cons_cons]
      simp only [List.append_assoc, List.cons_append] at h ⊢
      rw [h, if_pos trivial, ih']
      rfl

theorem length_le_writeMembers (kvs : List (String × GoString)) :
    kvs.length ≤ (writeMembers kvs).length := by
  induction kvs with
  | nil => simp
  | cons kv tail ih =>
    obtain ⟨k, v⟩ := kv
    cases tail with
    | nil => simp [writeMembers, quote]
    | cons p tail =>
      rw [writeMembers_cons_cons]
      simp only [List.length_append, List.length_cons] at ih ⊢
      omega

theorem parse_writeMembers (kvs : List (String × GoString)) (hne : kvs ≠ []) :
    parse (('{' :: (writeMembers kvs ++ ['}'])).map GoRune.char) =
      some (.object (kvs.map (fun p => (p.1, Value.string p.2.toValidUTF8)))) := by
  have hlen := length_le_writeMembers kvs
  obtain ⟨c, cs, hcs⟩ : ∃ c cs, writeMembers kvs = c :: cs := by
    cases h : writeMembers kvs with
    | nil =>
      rw [h] at hlen
      cases kvs with
      | nil => exact absurd rfl hne
      | cons _ _ => simp at hlen
    | cons c cs => exact ⟨c, cs, rfl⟩
  have hc : c = '"' := by
    cases kvs with
    | nil => exact absurd rfl hne
    | cons kv tail =>
      obtain ⟨k, v⟩ := kv
      cases tail with
      | nil => simp [writeMembers, quote] at hcs; exact hcs.1.symm
      | cons p tail => rw [writeMembers_cons_cons] at hcs; simp [quote] at hcs; exact hcs.1.symm
  subst hc
  have hm := parseMembers_writeMembers kvs hne (cs.length + 1 + 1 + 1) 1
    (by rw [hcs] at hlen; simp at hlen; omega) []
  rw [hcs] at hm
  have h1 : isSpace '{' = false := by decide
  have h2 : isSpace '"' = false := by decide
  simp only [parse, decoded_map_char, List.length_map]
  rw [parseValue.eq_def]
  simp only [hcs, List.length_cons, List.cons_append, List.length_append, List.length_singleton]
  simp only [List.cons_append] at hm
  simp [skipSpace, h1, h2, hm, maxNestingDepth]

/-- What `json.Marshal` writes for a struct of strings with at least one
field is valid JSON: the object of the fields, each with its invalid bytes
replaced by U+FFFD. -/
theorem parse_marshalStruct (fields : List StructField) (values : List GoString)
    (hne : (fields.map (StructField.key "json")).zip values ≠ []) :
    parse (marshalStruct fields values) =
      some (.object (((fields.map (StructField.key "json")).zip values).map
        (fun p => (p.1, Value.string p.2.toValidUTF8)))) :=
  parse_writeMembers _ hne

/-- Decoding what `json.Marshal` wrote for an event gives the event with each
byte that is not valid UTF-8 replaced by U+FFFD. -/
theorem Unmarshal_Marshal (event : SomeDomainEvent) :
    ∃ body, Marshal event = .ok body ∧ Unmarshal body = .ok event.toValidUTF8 := by
  refine ⟨marshalStruct SomeDomainEvent.fields event.values, rfl, ?_⟩
  have hp := parse_marshalStruct SomeDomainEvent.fields event.values (by
    simp [SomeDomainEvent.fields, SomeDomainEvent.values])
  have h1 : findField SomeDomainEvent.fields "id" =
      some { Name := "ID", Tag := [("json", "id")] } := by decide
  have h2 : findField SomeDomainEvent.fields "message" =
      some { Name := "Message", Tag := [("json", "message")] } := by decide
  have h3 : findField SomeDomainEvent.fields "source" =
      some { Name := "Source", Tag := [("json", "source")] } := by decide
  have hk : SomeDomainEvent.fields.map (StructField.key "json") = ["id", "message", "source"] := by
    decide
  simp only [Unmarshal, unmarshalStruct, hp]
  simp only [hk, SomeDomainEvent.values, List.zip_cons_cons,
    List.zip_nil_right, List.map_cons, List.map_nil, decodeMembers, h1, h2, h3]
  rfl

/-- An event whose fields are valid UTF-8 is left as it is by the
replacement. -/
theorem toValidUTF8_of_isValid (event : SomeDomainEvent) (hid : event.ID.isValid = true)
    (hm : event.Message.isValid = true) (hs : event.Source.isValid = true) :
    event.toValidUTF8 = event := by
  cases event
  simp only [SomeDomainEvent.toValidUTF8] at *
  rw [ofString_toValidUTF8 _ hid, ofString_toValidUTF8 _ hm, ofString_toValidUTF8 _ hs]

/-! ### Which texts are decoded without an error -/

theorem decodeMembers_saved (fields : List StructField) (members : List (String × Value))
    (as : List (String × String)) (saved : Option GoError) :
    (decodeMembers fields members (as, saved)).2 = none ↔
      saved = none ∧
        members.all (fun kv => (findField fields kv.1).isNone || kv.2.fitsString) = true := by
  induction members generalizing as saved with
  | nil => simp [decodeMembers]
  | cons kv rest ih =>
    obtain ⟨key, v⟩ := kv
    cases hf : findField fields key with
    | none => simp [decodeMembers, hf, ih]
    | some f =>
      cases v with
      | string s => simp [decodeMembers, hf, ih, Value.fitsString]
      | null => simp [decodeMembers, hf, ih, Value.fitsString]
      | bool b =>
        cases saved <;> simp [decodeMembers, hf, ih, Value.fitsString, Option.orElse]
      | number l =>
        cases saved <;> simp [decodeMembers, hf, ih, Value.fitsString, Option.orElse]
      | array l =>
        cases saved <;> simp [decodeMembers, hf, ih, Value.fitsString, Option.orElse]
      | object l =>
        cases saved <;> simp [decodeMembers, hf, ih, Value.fitsString, Option.orElse]

/-- The struct decoder returns no error exactly for the texts that
`unmarshals` describes. -/
theorem unmarshalStruct_ok_iff (fields : List StructField) (body : GoString) :
    (∃ as, unmarshalStruct fields body = .ok as) ↔ unmarshals fields body = true := by
  simp only [unmarshalStruct, unmarshals]
  cases hp : parse body with
  | none => simp
  | some v =>
    cases v with
    | null => simp [storesWithoutError]
    | bool b => simp [storesWithoutError]
    | number l => simp [storesWithoutError]
    | string s => simp [storesWithoutError]
    | array l => simp [storesWithoutError]
    | object members =>
      have h := decodeMembers_saved fields members [] none
      rcases hd : decodeMembers fields members ([], none) with ⟨as, _ | err⟩
      · rw [hd] at h
        simp only [true_and, true_iff] at h
        simp only [storesWithoutError, h, iff_true]
        exact ⟨as, by rw [hd]⟩
      · rw [hd] at h
        simp only [true_and] at h
        have h' : ¬ members.all
            (fun kv => (findField fields kv.1).isNone || kv.2.fitsString) = true :=
          fun hall => by simpa using h.2 hall
        simp only [storesWithoutError]
        constructor
        · rintro ⟨as', h0⟩
          rw [hd] at h0
          exact absurd h0 (by simp)
        · intro hall
          exact absurd hall h'

/-- The payload decoder returns no error exactly for the texts that
`unmarshals` describes. -/
theorem UnmarshalPayload_ok_iff (body : GoString) :
    (∃ payload, UnmarshalPayload body = .ok payload) ↔
      unmarshals InboundEventPayload.fields body = true := by
  rw [← unmarshalStruct_ok_iff]
  simp only [UnmarshalPayload]
  cases unmarshalStruct InboundEventPayload.fields body with
  | error err => simp [Except.map]
  | ok as => simp [Except.map]

/-- A text that `unmarshals` does not describe is answered with an error. -/
theorem UnmarshalPayload_error_of_not_unmarshals (body : GoString)
    (h : unmarshals InboundEventPayload.fields body = false) :
    ∃ cause, UnmarshalPayload body = .error cause := by
  cases hu : UnmarshalPayload body with
  | error cause => exact ⟨cause, rfl⟩
  | ok payload =>
    have := (UnmarshalPayload_ok_iff body).1 ⟨payload, hu⟩
    rw [h] at this
    cases this

/-! ### The fuel of the parser is enough -/

theorem skipSpace_length_le (cs : List Char) : (skipSpace cs).length ≤ cs.length := by
  induction cs with
  | nil => simp [skipSpace]
  | cons c cs ih =>
    simp only [skipSpace]
    split
    · simp only [List.length_cons]; omega
    · exact Nat.le_refl _

theorem scanString_length_lt (n : Nat) :
    ∀ (cs : List Char) (r : List Unit16 × List Char), cs.length ≤ n →
      scanString cs = some r → r.2.length < cs.length := by
  induction n with
  | zero =>
    intro cs r hn h
    cases cs with
    | nil => simp [scanString] at h
    | cons c cs => simp at hn
  | succ n ih =>
    intro cs r hn h
    rw [scanString.eq_def] at h
    split at h
    · exact absurd h (by simp)
    · rename_i c rest
      simp only [List.length_cons] at hn ⊢
      split at h
      · cases h; simp
      · split at h
        · split at h
          · exact absurd h (by simp)
          · rename_i e rest'
            split at h
            · split at h
              · rename_i a b c' d rest''
                split at h
                · exact absurd h (by simp)
                · simp only [Option.map_eq_some'] at h
                  obtain ⟨r', hr', rfl⟩ := h
                  have := ih rest'' r' (by simp only [List.length_cons] at hn; omega) hr'
                  simp only [List.length_cons]
                  omega
              · exact absurd h (by simp)
            · split at h
              · exact absurd h (by simp)
              · simp only [Option.map_eq_some'] at h
                obtain ⟨r', hr', rfl⟩ := h
                have := ih rest' r' (by simp only [List.length_cons] at hn; omega) hr'
                simp only [List.length_cons]
                omega
        · split at h
          · exact absurd h (by simp)
          · simp only [Option.map_eq_some'] at h
            obtain ⟨r', hr', rfl⟩ := h
            have := ih rest r' (by omega) hr'
            dsimp only
            omega

theorem parseString_length_lt (cs : List Char) (r : String × List Char)
    (h : parseString cs = some r) : r.2.length < cs.length := by
  simp only [parseString, Option.map_eq_some'] at h
  obtain ⟨r', hr', rfl⟩ := h
  exact scanString_length_lt cs.length cs r' (Nat.le_refl _) hr'

theorem takeDigits_length_le (cs : List Char) : (takeDigits cs).2.length ≤ cs.length := by
  induction cs with
  | nil => simp [takeDigits]
  | cons c cs ih =>
    simp only [takeDigits]
    split
    · simp only [List.length_cons]; omega
    · exact Nat.le_refl _

theorem parseInt_length_lt (cs : List Char) (r : List Char × List Char)
    (h : parseInt cs = some r) : r.2.length < cs.length := by
  cases cs with
  | nil => simp [parseInt] at h
  | cons c rest =>
    simp only [parseInt] at h
    have := takeDigits_length_le rest
    split at h
    · cases h; simp
    · split at h
      · cases h; simp only [List.length_cons]; omega
      · exact absurd h (by simp)

theorem parseFrac_length_le (cs : List Char) (r : List Char × List Char)
    (h : parseFrac cs = some r) : r.2.length ≤ cs.length := by
  cases cs with
  | nil => simp [parseFrac] at h; cases h; simp
  | cons c rest =>
    simp only [parseFrac] at h
    have := takeDigits_length_le rest
    split at h
    · split at h
      · exact absurd h (by simp)
      · rename_i ds rest' heq
        cases h
        rw [heq] at this
        simp only [List.length_cons] at this ⊢
        omega
    · cases h; simp

theorem takeSign_length_le (cs : List Char) : (takeSign cs).2.length ≤ cs.length := by
  cases cs with
  | nil => simp [takeSign]
  | cons c rest =>
    simp only [takeSign]
    split <;> simp

theorem parseExp_length_le (cs : List Char) (r : List Char × List Char)
    (h : parseExp cs = some r) : r.2.length ≤ cs.length := by
  cases cs with
  | nil => simp [parseExp] at h; cases h; simp
  | cons c rest =>
    simp only [parseExp] at h
    have h1 := takeSign_length_le rest
    have h2 := takeDigits_length_le (takeSign rest).2
    split at h
    · split at h
      · exact absurd h (by simp)
      · rename_i ds rest' heq
        cases h
        rw [heq] at h2
        simp only [List.length_cons] at h2 ⊢
        omega
    · cases h; simp

theorem parseNumber_length_lt (cs : List Char) (r : List Char × List Char)
    (h : parseNumber cs = some r) : r.2.length < cs.length := by
  simp only [parseNumber] at h
  split at h
  · exact absurd h (by simp)
  · rename_i ip cs1 h1
    split at h
    · exact absurd h (by simp)
    · rename_i fp cs2 h2
      split at h
      · exact absurd h (by simp)
      · rename_i ep cs3 h3
        cases h
        have l1 := parseInt_length_lt _ _ h1
        have l2 := parseFrac_length_le _ _ h2
        have l3 := parseExp_length_le _ _ h3
        have l0 : (match cs with
            | [] => (([] : List Char), ([] : List Char))
            | c :: rest => if c = '-' then ([c], rest) else ([], c :: rest)).2.length ≤
            cs.length := by
          cases cs with
          | nil => simp
          | cons c rest => dsimp only; split <;> simp
        dsimp only at l1 l2 l3 ⊢
        omega

theorem parseScalar_length_lt (c : Char) (rest : List Char) (r : Value × List Char)
    (h : parseScalar c rest = some r) : r.2.length < (c :: rest).length := by
  simp only [parseScalar] at h
  split at h
  · simp only [Option.map_eq_some'] at h
    obtain ⟨r', hr', rfl⟩ := h
    have := parseString_length_lt _ _ hr'
    simp only [List.length_cons]
    omega
  · split at h
    · split at h
      · cases h; simp only [List.length_cons]; omega
      · exact absurd h (by simp)
    · split at h
      · split at h
        · cases h; simp only [List.length_cons]; omega
        · exact absurd h (by simp)
      · split at h
        · split at h
          · cases h; simp only [List.length_cons]; omega
          · exact absurd h (by simp)
        · simp only [Option.map_eq_some'] at h
          obtain ⟨r', hr', rfl⟩ := h
          exact parseNumber_length_lt _ _ hr'

theorem parseValue_adequate_succ (f : Nat) (hE : Adequate parseElements f)
    (hM : Adequate parseMembers f) : Adequate parseValue (f + 1) := by
  intro d cs r h
  rw [parseValue.eq_def] at h
  simp only at h
  have hsp := skipSpace_length_le cs
  cases hsk : skipSpace cs with
  | nil => rw [hsk] at h; exact absurd h (by simp)
  | cons c rest =>
    rw [hsk] at h hsp
    simp only [List.length_cons] at hsp
    simp only at h
    by_cases h1 : c = '{'
    · simp only [h1, if_true] at h
      by_cases hd : maxNestingDepth ≤ d
      · simp only [hd, if_true] at h
        exact absurd h (by simp)
      · simp only [hd, if_false] at h
        have hsp2 := skipSpace_length_le rest
        cases hsk2 : skipSpace rest with
        | nil => rw [hsk2] at h; exact absurd h (by simp)
        | cons c' rest' =>
          rw [hsk2] at h hsp2
          simp only [List.length_cons] at hsp2
          simp only at h
          by_cases h2 : c' = '}'
          · simp only [h2, if_true] at h
            cases h
            refine ⟨by dsimp only; omega, ?_⟩
            intro g hg
            dsimp only at hg
            obtain ⟨g', rfl⟩ : ∃ g', g = g' + 1 := ⟨g - 1, by omega⟩
            rw [parseValue.eq_def]
            simp [hsk, h1, hd, hsk2, h2]
          · simp only [h2, if_false, Option.map_eq_some'] at h
            obtain ⟨r', hr', rfl⟩ := h
            obtain ⟨hlt, hg'⟩ := hM (d + 1) _ r' hr'
            simp only [List.length_cons] at hlt hg'
            refine ⟨by dsimp only; omega, ?_⟩
            intro g hg
            dsimp only at hg
            obtain ⟨g', rfl⟩ : ∃ g', g = g' + 1 := ⟨g - 1, by omega⟩
            have := hg' g' (by omega)
            rw [parseValue.eq_def]
            simp [hsk, h1, hd, hsk2, h2, this]
    · simp only [h1, if_false] at h
      by_cases h1' : c = '['
      · simp only [h1', if_true] at h
        by_cases hd : maxNestingDepth ≤ d
        · simp only [hd, if_true] at h
          exact absurd h (by simp)
        · simp only [hd, if_false] at h
          have hsp2 := skipSpace_length_le rest
          cases hsk2 : skipSpace rest with
          | nil => rw [hsk2] at h; exact absurd h (by simp)
          | cons c' rest' =>
            rw [hsk2] at h hsp2
            simp only [List.length_cons] at hsp2
            simp only at h
            by_cases h2 : c' = ']'
            · simp only [h2, if_true] at h
              cases h
              refine ⟨by dsimp only; omega, ?_⟩
              intro g hg
              dsimp only at hg
              obtain ⟨g', rfl⟩ : ∃ g', g = g' + 1 := ⟨g - 1, by omega⟩
              rw [parseValue.eq_def]
              simp [hsk, h1, h1', hd, hsk2, h2]
            · simp only [h2, if_false, Option.map_eq_some'] at h
              obtain ⟨r', hr', rfl⟩ := h
              obtain ⟨hlt, hg'⟩ := hE (d + 1) _ r' hr'
              simp only [List.length_cons] at hlt hg'
              refine ⟨by dsimp only; omega, ?_⟩
              intro g hg
              dsimp only at hg
              obtain ⟨g', rfl⟩ : ∃ g', g = g' + 1 := ⟨g - 1, by omega⟩
              have := hg' g' (by omega)
              rw [parseValue.eq_def]
              simp [hsk, h1, h1', hd, hsk2, h2, this]
      · simp only [h1', if_false] at h
        have hlt := parseScalar_length_lt c rest r h
        simp only [List.length_cons] at hlt
        refine ⟨by omega, ?_⟩
        intro g hg
        obtain ⟨g', rfl⟩ : ∃ g', g = g' + 1 := ⟨g - 1, by omega⟩
        rw [parseValue.eq_def]
        simp [hsk, h1, h1', h]

theorem parseElements_adequate_succ (f : Nat) (hV : Adequate parseValue f)
    (hE : Adequate parseElements f) : Adequate parseElements (f + 1) := by
  intro d cs r h
  rw [parseElements.eq_def] at h
  simp only at h
  cases hv : parseValue f d cs with
  | none => rw [hv] at h; exact absurd h (by simp)
  | some r1 =>
    obtain ⟨v, rest1⟩ := r1
    rw [hv] at h
    simp only at h
    obtain ⟨hlt1, hg1⟩ := hV d cs _ hv
    dsimp only at hlt1 hg1
    have hsp := skipSpace_length_le rest1
    cases hsk : skipSpace rest1 with
    | nil => rw [hsk] at h; exact absurd h (by simp)
    | cons c rest =>
      rw [hsk] at h hsp
      simp only [List.length_cons] at hsp
      simp only at h
      by_cases h1 : c = ','
      · simp only [h1, if_true, Option.map_eq_some'] at h
        obtain ⟨r', hr', rfl⟩ := h
        obtain ⟨hlt, hg'⟩ := hE d _ r' hr'
        refine ⟨by dsimp only; omega, ?_⟩
        intro g hg
        dsimp only at hg
        obtain ⟨g', rfl⟩ : ∃ g', g = g' + 1 := ⟨g - 1, by omega⟩
        have e1 := hg1 g' (by omega)
        have e2 := hg' g' (by omega)
        rw [parseElements.eq_def]
        simp [e1, hsk, h1, e2]
      · simp only [h1, if_false] at h
        by_cases h2 : c = ']'
        · simp only [h2, if_true] at h
          cases h
          refine ⟨by dsimp only; omega, ?_⟩
          intro g hg
          dsimp only at hg
          obtain ⟨g', rfl⟩ : ∃ g', g = g' + 1 := ⟨g - 1, by omega⟩
          have e1 := hg1 g' (by omega)
          rw [parseElements.eq_def]
          simp [e1, hsk, h1, h2]
        · simp only [h2, if_false] at h
          exact absurd h (by simp)

theorem parseMembers_adequate_succ (f : Nat) (hV : Adequate parseValue f)
    (hM : Adequate parseMembers f) : Adequate parseMembers (f + 1) := by
  intro d cs r h
  rw [parseMembers.eq_def] at h
  simp only at h
  have hsp0 := skipSpace_length_le cs
  cases hsk0 : skipSpace cs with
  | nil => rw [hsk0] at h; exact absurd h (by simp)
  | cons q rest0 =>
    rw [hsk0] at h hsp0
    simp only [List.length_cons] at hsp0
    simp only at h
    by_cases hq : q = '"'
    · simp only [hq, if_true] at h
      cases hk : parseString rest0 with
      | none => rw [hk] at h; exact absurd h (by simp)
      | some rk =>
        obtain ⟨key, restk⟩ := rk
        rw [hk] at h
        simp only at h
        have hltk := parseString_length_lt _ _ hk
        dsimp only at hltk
        have hspk := skipSpace_length_le restk
        cases hskk : skipSpace restk with
        | nil => rw [hskk] at h; exact absurd h (by simp)
        | cons cc restc =>
          rw [hskk] at h hspk
          simp only [List.length_cons] at hspk
          simp only at h
          by_cases hc : cc = ':'
          · simp only [hc, if_true] at h
            cases hv : parseValue f d restc with
            | none => rw [hv] at h; exact absurd h (by simp)
            | some r1 =>
              obtain ⟨v, rest1⟩ := r1
              rw [hv] at h
              simp only at h
              obtain ⟨hlt1, hg1⟩ := hV d restc _ hv
              dsimp only at hlt1 hg1
              have hsp := skipSpace_length_le rest1
              cases hsk : skipSpace rest1 with
              | nil => rw [hsk] at h; exact absurd h (by simp)
              | cons c rest =>
                rw [hsk] at h hsp
                simp only [List.length_cons] at hsp
                simp only at h
                by_cases h1 : c = ','
                · simp only [h1, if_true, Option.map_eq_some'] at h
                  obtain ⟨r', hr', rfl⟩ := h
                  obtain ⟨hlt, hg'⟩ := hM d _ r' hr'
                  refine ⟨by dsimp only; omega, ?_⟩
                  intro g hg
                  dsimp only at hg
                  obtain ⟨g', rfl⟩ : ∃ g', g = g' + 1 := ⟨g - 1, by omega⟩
                  have e1 := hg1 g' (by omega)
                  have e2 := hg' g' (by omega)
                  rw [parseMembers.eq_def]
                  simp [hsk0, hq, hk, hskk, hc, e1, hsk, h1, e2]
                · simp only [h1, if_false] at h
                  by_cases h2 : c = '}'
                  · simp only [h2, if_true] at h
                    cases h
                    refine ⟨by dsimp only; omega, ?_⟩
                    intro g hg
                    dsimp only at hg
                    obtain ⟨g', rfl⟩ : ∃ g', g = g' + 1 := ⟨g - 1, by omega⟩
                    have e1 := hg1 g' (by omega)
                    rw [parseMembers.eq_def]
                    simp [hsk0, hq, hk, hskk, hc, e1, hsk, h1, h2]
                  · simp only [h2, if_false] at h
                    exact absurd h (by simp)
          · simp only [hc, if_false] at h
            exact absurd h (by simp)
    · simp only [hq, if_false] at h
      exact absurd h (by simp)

theorem parse_adequate (f : Nat) :
    Adequate parseValue f ∧ Adequate parseElements f ∧ Adequate parseMembers f := by
  induction f with
  | zero =>
    refine ⟨?_, ?_, ?_⟩ <;> intro d cs r h
    · rw [parseValue.eq_def] at h; exact absurd h (by simp)
    · rw [parseElements.eq_def] at h; exact absurd h (by simp)
    · rw [parseMembers.eq_def] at h; exact absurd h (by simp)
  | succ f ih =>
    exact ⟨parseValue_adequate_succ f ih.2.1 ih.2.2,
      parseElements_adequate_succ f ih.1 ih.2.1,
      parseMembers_adequate_succ f ih.1 ih.2.2⟩

/-- The fuel `parse` gives is enough: whatever a fuel makes of a text, the
fuel of `parse`, one more than the length of the text, makes the same of it. -/
theorem parseValue_fuel (f d : Nat) (cs : List Char) (r : Value × List Char)
    (h : parseValue f d cs = some r) : parseValue (cs.length + 1) d cs = some r :=
  ((parse_adequate f).1 d cs r h).2 _ (by omega)

/-- A text that some fuel reads as one JSON value between optional white
space is read as that value by `parse`. -/
theorem parse_of_parseValue (data : GoString) (f : Nat) (v : Value) (rest : List Char)
    (h : parseValue f 0 (data.map GoRune.decoded) = some (v, rest))
    (hrest : skipSpace rest = []) : parse data = some v := by
  have := parseValue_fuel f 0 (data.map GoRune.decoded) (v, rest) h
  simp only [List.length_map] at this
  simp only [parse, this, hrest, if_true]

end json

/-! ## The claims on the event receiver, the store and the endpoint -/

section Publisher

variable {κ γ : Type}

theorem NewEventReceiver_append (uuidNewString : IDGenerator γ) (client : SQSClient κ)
    (targetQueueURL : String) (options : List (EventReceiverOption κ γ))
    (o : EventReceiverOption κ γ) :
    NewEventReceiver uuidNewString client targetQueueURL (options ++ [o]) =
      o (NewEventReceiver uuidNewString client targetQueueURL options) := by
  simp [NewEventReceiver, List.foldl_append]

theorem FromContext_unbound (ctx : Context) (h : ∀ id, CtxValue.correlationID id ∉ ctx) :
    correlation.FromContext ctx = "" := by
  induction ctx with
  | nil => rfl
  | cons v ctx ih =>
    have ih' := ih (fun id hid => h id (List.mem_cons_of_mem _ hid))
    cases v with
    | correlationID id => exact absurd (List.mem_cons_self _ _) (h id)
    | logger l => simpa [correlation.FromContext] using ih'
    | other k x => simpa [correlation.FromContext] using ih'

/-- The three ways a call of `ReceiveInboundEvent` can go. -/
theorem ReceiveInboundEvent_cases (marshal : SomeDomainEvent → Except GoError GoString)
    (e : EventReceiver κ γ) (ctx : Context) (source message : GoString) (gen : γ) (client : κ) :
    (∃ cause,
      marshal { ID := (e.idGenerator gen).1, Message := message, Source := source } =
        .error cause ∧
      e.ReceiveInboundEvent marshal ctx source message gen client =
        { err := some (fmtErrorfW "error marshalling event: " cause)
          gen := (e.idGenerator gen).2
          client := client
          trace := [Effect.generateID (e.idGenerator gen).1] }) ∨
    (∃ payload cause client',
      marshal { ID := (e.idGenerator gen).1, Message := message, Source := source } =
        .ok payload ∧
      e.client.SendMessage ctx (e.sendMessageInput ctx payload) client = (some cause, client') ∧
      e.ReceiveInboundEvent marshal ctx source message gen client =
        { err := some (fmtErrorfW "error publishing event: " cause)
          gen := (e.idGenerator gen).2
          client := client'
          trace := [Effect.generateID (e.idGenerator gen).1,
            Effect.sendMessage ctx (e.sendMessageInput ctx payload)] }) ∨
    (∃ payload client',
      marshal { ID := (e.idGenerator gen).1, Message := message, Source := source } =
        .ok payload ∧
      e.client.SendMessage ctx (e.sendMessageInput ctx payload) client = (none, client') ∧
      e.ReceiveInboundEvent marshal ctx source message gen client =
        { err := none
          gen := (e.idGenerator gen).2
          client := client'
          trace := [Effect.generateID (e.idGenerator gen).1,
            Effect.sendMessage ctx (e.sendMessageInput ctx payload),
            Effect.log ctx .trace "published event"] }) := by
  cases hm : marshal { ID := (e.idGenerator gen).1, Message := message, Source := source } with
  | error cause =>
    refine Or.inl ⟨cause, rfl, ?_⟩
    simp [EventReceiver.ReceiveInboundEvent, hm]
  | ok payload =>
    rcases hs : e.client.SendMessage ctx (e.sendMessageInput ctx payload) client with
      ⟨_ | cause, c⟩
    · refine Or.inr (Or.inr ⟨payload, c, rfl, hs, ?_⟩)
      simp [EventReceiver.ReceiveInboundEvent, hm, hs]
    · refine Or.inr (Or.inl ⟨payload, cause, c, rfl, hs, ?_⟩)
      simp [EventReceiver.ReceiveInboundEvent, hm, hs]

end Publisher

/-- Claim C7, as stated, fails: for the message that is the single byte
`0xff`, which is not valid UTF-8, the body `ReceiveInboundEvent` sends decodes
as an event whose message is the character U+FFFD, not the input. -/
theorem C7_invalid_utf8_is_not_sent_unchanged :
    (∃ body,
      ((NewEventReceiver countingIDs memoryQueue "https://queue" []).ReceiveInboundEvent
          json.Marshal [] (GoString.ofString "web") [GoRune.invalid 0xff] 0 []).trace.filterMap
          Effect.sendCall =
        [([], { MessageBody := some body
                QueueUrl := some "https://queue"
                DelaySeconds := 0
                MessageAttributes :=
                  [("correlationID",
                    { DataType := some "String", StringValue := some "" })] })] ∧
      json.Unmarshal body =
        .ok { ID := GoString.ofString "id-"
              Message := [GoRune.char (Char.ofNat 0xFFFD)]
              Source := GoString.ofString "web" }) ∧
    [GoRune.char (Char.ofNat 0xFFFD)] ≠ [GoRune.invalid 0xff] := by
  refine ⟨⟨GoString.ofString
    "\x7b\"id\":\"id-\",\"message\":\"\\ufffd\",\"source\":\"web\"\x7d", by decide, rfl⟩,
    by decide⟩

/-- Claim C7, as amended. For every source, message and context,
`ReceiveInboundEvent` calls the identity generator of the receiver once and
makes exactly one `SendMessage` call, to the queue URL of the receiver, leaving
the queue service as that call left it. The body decodes as the
`SomeDomainEvent` with the generated identity, the message and the source, each
with every byte that is not valid UTF-8 replaced by U+FFFD: so as the event
with exactly the generated identity, the message and the source when these are
valid UTF-8. The `correlationID` attribute is a `String` holding
`correlation.FromContext(ctx)`, which is the empty string when the context binds
no identifier. The generator is `uuid.NewString` for a receiver built without
options, and the one given last through `WithIDGenerator` otherwise. -/
theorem C7_publish_sends_one_decodable_message {κ γ : Type} (e : EventReceiver κ γ)
    (ctx : Context) (source message : GoString) (gen : γ) (client : κ) :
    (e.ReceiveInboundEvent json.Marshal ctx source message gen client).trace.filterMap
        Effect.generated = [(e.idGenerator gen).1] ∧
      (e.ReceiveInboundEvent json.Marshal ctx source message gen client).gen =
        (e.idGenerator gen).2 ∧
      (∃ body,
        (e.ReceiveInboundEvent json.Marshal ctx source message gen client).trace.filterMap
            Effect.sendCall =
          [(ctx,
            { MessageBody := some body
              QueueUrl := some e.targetQueueURL
              DelaySeconds := 0
              MessageAttributes :=
                [("correlationID",
                  { DataType := some "String"
                    StringValue := some (correlation.FromContext ctx) })] })] ∧
        (e.ReceiveInboundEvent json.Marshal ctx source message gen client).client =
          (e.client.SendMessage ctx
            { MessageBody := some body
              QueueUrl := some e.targetQueueURL
              DelaySeconds := 0
              MessageAttributes :=
                [("correlationID",
                  { DataType := some "String"
                    StringValue := some (correlation.FromContext ctx) })] } client).2 ∧
        json.Unmarshal body =
          .ok { ID := GoString.ofString (e.idGenerator gen).1.toValidUTF8
                Message := GoString.ofString message.toValidUTF8
                Source := GoString.ofString source.toValidUTF8 } ∧
        ((e.idGenerator gen).1.isValid = true → message.isValid = true →
          source.isValid = true →
          json.Unmarshal body =
            .ok { ID := (e.idGenerator gen).1, Message := message, Source := source })) ∧
      ((∀ id, CtxValue.correlationID id ∉ ctx) → correlation.FromContext ctx = "") ∧
      (∀ (uuidNewString : IDGenerator γ) (c : SQSClient κ) (url : String),
        (NewEventReceiver uuidNewString c url []).idGenerator = uuidNewString ∧
        (NewEventReceiver uuidNewString c url []).targetQueueURL = url) ∧
      (∀ (uuidNewString : IDGenerator γ) (c : SQSClient κ) (url : String)
          (options : List (EventReceiverOption κ γ)) (g : IDGenerator γ),
        (NewEventReceiver uuidNewString c url (options ++ [WithIDGenerator g])).idGenerator =
          g) := by
  obtain ⟨body, hm, hu⟩ := json.Unmarshal_Marshal
    { ID := (e.idGenerator gen).1, Message := message, Source := source }
  have hparams : e.sendMessageInput ctx body =
      { MessageBody := some body
        QueueUrl := some e.targetQueueURL
        DelaySeconds := 0
        MessageAttributes :=
          [("correlationID",
            { DataType := some "String"
              StringValue := some (correlation.FromContext ctx) })] } := rfl
  have hvalid : (e.idGenerator gen).1.isValid = true → message.isValid = true →
      source.isValid = true →
      json.Unmarshal body =
        .ok { ID := (e.idGenerator gen).1, Message := message, Source := source } := by
    intro h1 h2 h3
    rw [hu, json.toValidUTF8_of_isValid _ h1 h2 h3]
  refine ⟨?_, ?_, ⟨body, ?_, ?_, hu, hvalid⟩, FromContext_unbound ctx,
    fun _ _ _ => ⟨rfl, rfl⟩, ?_⟩
  · rcases ReceiveInboundEvent_cases json.Marshal e ctx source message gen client with
      ⟨cause, hc, _⟩ | ⟨payload, cause, c, _, _, hr⟩ | ⟨payload, c, _, _, hr⟩
    · rw [hm] at hc; cases hc
    · simp [hr, Effect.generated]
    · simp [hr, Effect.generated]
  · rcases ReceiveInboundEvent_cases json.Marshal e ctx source message gen client with
      ⟨cause, hc, _⟩ | ⟨payload, cause, c, _, _, hr⟩ | ⟨payload, c, _, _, hr⟩
    · rw [hm] at hc; cases hc
    · simp [hr]
    · simp [hr]
  · rw [← hparams]
    rcases ReceiveInboundEvent_cases json.Marshal e ctx source message gen client with
      ⟨cause, hc, _⟩ | ⟨payload, cause, c, hp, _, hr⟩ | ⟨payload, c, hp, _, hr⟩
    · rw [hm] at hc; cases hc
    · rw [hm] at hp; cases hp
      simp [hr, Effect.sendCall]
    · rw [hm] at hp; cases hp
      simp [hr, Effect.sendCall]
  · rw [← hparams]
    rcases ReceiveInboundEvent_cases json.Marshal e ctx source message gen client with
      ⟨cause, hc, _⟩ | ⟨payload, cause, c, hp, hs, hr⟩ | ⟨payload, c, hp, hs, hr⟩
    · rw [hm] at hc; cases hc
    · rw [hm] at hp; cases hp
      rw [hr, hs]
    · rw [hm] at hp; cases hp
      rw [hr, hs]
  · intro uuidNewString c url options g
    rw [NewEventReceiver_append]
    rfl

/-- Claim C8. `ReceiveInboundEvent` returns a non-nil error exactly when
serializing the event fails or the `SendMessage` call fails; the error wraps the
cause, `errors.Unwrap` giving the cause back; `SendMessage` is attempted at most
once, not at all after a serialization failure (the queue service is left as it
was) and once otherwise (the queue service is left as that call left it); and
when both steps succeed the result is `nil`. -/
theorem C8_publish_error_iff_a_step_fails {κ γ : Type}
    (marshal : SomeDomainEvent → Except GoError GoString) (e : EventReceiver κ γ)
    (ctx : Context) (source message : GoString) (gen : γ) (client : κ) :
    (∀ cause,
      marshal { ID := (e.idGenerator gen).1, Message := message, Source := source } =
        .error cause →
      (e.ReceiveInboundEvent marshal ctx source message gen client).err =
          some (fmtErrorfW "error marshalling event: " cause) ∧
        (fmtErrorfW "error marshalling event: " cause).Unwrap = some cause ∧
        (e.ReceiveInboundEvent marshal ctx source message gen client).trace.filterMap
          Effect.sendCall = [] ∧
        (e.ReceiveInboundEvent marshal ctx source message gen client).client = client) ∧
    (∀ payload,
      marshal { ID := (e.idGenerator gen).1, Message := message, Source := source } =
        .ok payload →
      (e.ReceiveInboundEvent marshal ctx source message gen client).trace.filterMap
          Effect.sendCall = [(ctx, e.sendMessageInput ctx payload)] ∧
        (e.ReceiveInboundEvent marshal ctx source message gen client).client =
          (e.client.SendMessage ctx (e.sendMessageInput ctx payload) client).2 ∧
        (∀ cause,
          (e.client.SendMessage ctx (e.sendMessageInput ctx payload) client).1 = some cause →
          (e.ReceiveInboundEvent marshal ctx source message gen client).err =
              some (fmtErrorfW "error publishing event: " cause) ∧
            (fmtErrorfW "error publishing event: " cause).Unwrap = some cause) ∧
        ((e.client.SendMessage ctx (e.sendMessageInput ctx payload) client).1 = none →
          (e.ReceiveInboundEvent marshal ctx source message gen client).err = none)) ∧
    ((e.ReceiveInboundEvent marshal ctx source message gen client).trace.filterMap
      Effect.sendCall).length ≤ 1 ∧
    ((e.ReceiveInboundEvent marshal ctx source message gen client).err ≠ none ↔
      (∃ cause,
        marshal { ID := (e.idGenerator gen).1, Message := message, Source := source } =
          .error cause) ∨
      (∃ payload cause,
        marshal { ID := (e.idGenerator gen).1, Message := message, Source := source } =
          .ok payload ∧
        (e.client.SendMessage ctx (e.sendMessageInput ctx payload) client).1 = some cause)) := by
  rcases ReceiveInboundEvent_cases marshal e ctx source message gen client with
    ⟨cause, hm, hr⟩ | ⟨payload, cause, c, hm, hs, hr⟩ | ⟨payload, c, hm, hs, hr⟩
  · refine ⟨?_, ?_, ?_, ?_⟩
    · intro cause' hm'
      rw [hm] at hm'; cases hm'
      simp [hr, fmtErrorfW, GoError.Unwrap, Effect.sendCall]
    · intro payload hm'
      rw [hm] at hm'; cases hm'
    · simp [hr, Effect.sendCall]
    · simp [hr, hm]
  · refine ⟨?_, ?_, ?_, ?_⟩
    · intro cause' hm'
      rw [hm] at hm'; cases hm'
    · intro payload' hm'
      rw [hm] at hm'; cases hm'
      simp [hr, hs, fmtErrorfW, GoError.Unwrap, Effect.sendCall]
    · simp [hr, Effect.sendCall]
    · simp [hr, hm, hs]
  · refine ⟨?_, ?_, ?_, ?_⟩
    · intro cause' hm'
      rw [hm] at hm'; cases hm'
    · intro payload' hm'
      rw [hm] at hm'; cases hm'
      simp [hr, hs, Effect.sendCall]
    · simp [hr, Effect.sendCall]
    · simp [hr, hm, hs]

/-- The three ways a call of `DynamoStore.PersistEvent` can go. -/
theorem DynamoStore.PersistEvent_cases {δ : Type}
    (marshalMap : SomeDomainEvent → Except GoError (List (String × AttributeValue)))
    (d : DynamoStore δ) (ctx : Context) (event : SomeDomainEvent) (client : δ) :
    (∃ cause, marshalMap event = .error cause ∧
      d.PersistEvent marshalMap ctx event client =
        { err := some (fmtErrorfW "error marshalling event: " cause)
          client := client
          trace := [] }) ∨
    (∃ av cause client', marshalMap event = .ok av ∧
      d.client.PutItem ctx { TableName := some d.targetTable, Item := av } client =
        (some cause, client') ∧
      d.PersistEvent marshalMap ctx event client =
        { err := some (fmtErrorfW "error persisting event: " cause)
          client := client'
          trace := [Effect.putItem ctx { TableName := some d.targetTable, Item := av }] }) ∨
    (∃ av client', marshalMap event = .ok av ∧
      d.client.PutItem ctx { TableName := some d.targetTable, Item := av } client =
        (none, client') ∧
      d.PersistEvent marshalMap ctx event client =
        { err := none
          client := client'
          trace := [Effect.putItem ctx { TableName := some d.targetTable, Item := av },
            Effect.log ctx .trace "persisted event"] }) := by
  cases hm : marshalMap event with
  | error cause =>
    refine Or.inl ⟨cause, rfl, ?_⟩
    simp [DynamoStore.PersistEvent, hm]
  | ok av =>
    rcases hs : d.client.PutItem ctx { TableName := some d.targetTable, Item := av } client with
      ⟨_ | cause, c⟩
    · refine Or.inr (Or.inr ⟨av, c, rfl, hs, ?_⟩)
      simp [DynamoStore.PersistEvent, hm, hs]
    · refine Or.inr (Or.inl ⟨av, cause, c, rfl, hs, ?_⟩)
      simp [DynamoStore.PersistEvent, hm, hs]

/-- Claim C9, as stated, fails: the item `PersistEvent` puts for the event
with identity `e-1`, message `hello` and source `web` has no attribute named
`id`, `message` or `source`; its attributes are named `ID`, `Message` and
`Source`. -/
theorem C9_item_is_not_named_by_the_json_tags :
    ((NewDynamoStore memoryTable "events").PersistEvent SomeDomainEvent.MarshalMap []
        { ID := GoString.ofString "e-1", Message := GoString.ofString "hello"
          Source := GoString.ofString "web" } []).trace.filterMap Effect.putCall =
      [([], { TableName := some "events"
              Item := [("ID", .S (GoString.ofString "e-1")),
                ("Message", .S (GoString.ofString "hello")),
                ("Source", .S (GoString.ofString "web"))] })] ∧
    ¬ ∃ call ∈ ((NewDynamoStore memoryTable "events").PersistEvent
        SomeDomainEvent.MarshalMap []
        { ID := GoString.ofString "e-1", Message := GoString.ofString "hello"
          Source := GoString.ofString "web" } []).trace.filterMap Effect.putCall,
      call.2.Item.lookup "id" = some (.S (GoString.ofString "e-1")) := by
  decide

/-- Claim C9, as amended. For every event, `DynamoStore.PersistEvent` issues
one `PutItem` to the table of the store, leaving the table service as that call
left it, whose item has three string attributes, named `ID`, `Message` and
`Source` after the Go fields, holding the `ID`, the `Message` and the `Source`
of the event unchanged; it returns `nil` when
`PutItem` succeeds and an error wrapping the cause when `PutItem` fails; and
for any marshaller, a marshalling failure is returned wrapped, with no
`PutItem` issued. -/
theorem C9_persist_puts_the_event_under_its_go_field_names {δ : Type} (d : DynamoStore δ)
    (ctx : Context) (event : SomeDomainEvent) (client : δ) :
    (d.PersistEvent SomeDomainEvent.MarshalMap ctx event client).trace.filterMap
        Effect.putCall =
      [(ctx, { TableName := some d.targetTable
               Item := [("ID", .S event.ID), ("Message", .S event.Message),
                 ("Source", .S event.Source)] })] ∧
    (d.PersistEvent SomeDomainEvent.MarshalMap ctx event client).client =
      (d.client.PutItem ctx
        { TableName := some d.targetTable
          Item := [("ID", .S event.ID), ("Message", .S event.Message),
            ("Source", .S event.Source)] } client).2 ∧
    (∀ cause,
      (d.client.PutItem ctx
        { TableName := some d.targetTable
          Item := [("ID", .S event.ID), ("Message", .S event.Message),
            ("Source", .S event.Source)] } client).1 = some cause →
      (d.PersistEvent SomeDomainEvent.MarshalMap ctx event client).err =
          some (fmtErrorfW "error persisting event: " cause) ∧
        (fmtErrorfW "error persisting event: " cause).Unwrap = some cause) ∧
    ((d.client.PutItem ctx
        { TableName := some d.targetTable
          Item := [("ID", .S event.ID), ("Message", .S event.Message),
            ("Source", .S event.Source)] } client).1 = none →
      (d.PersistEvent SomeDomainEvent.MarshalMap ctx event client).err = none) ∧
    (∀ (marshalMap : SomeDomainEvent → Except GoError (List (String × AttributeValue))) cause,
      marshalMap event = .error cause →
      (d.PersistEvent marshalMap ctx event client).err =
          some (fmtErrorfW "error marshalling event: " cause) ∧
        (fmtErrorfW "error marshalling event: " cause).Unwrap = some cause ∧
        (d.PersistEvent marshalMap ctx event client).trace.filterMap Effect.putCall = []) := by
  have hmm : SomeDomainEvent.MarshalMap event =
      .ok [("ID", .S event.ID), ("Message", .S event.Message), ("Source", .S event.Source)] := by
    have hk : SomeDomainEvent.fields.map (StructField.key "dynamodbav") =
        ["ID", "Message", "Source"] := by decide
    simp [SomeDomainEvent.MarshalMap, attributevalue.MarshalMap, hk, SomeDomainEvent.values]
  refine ⟨?_, ?_, ?_, ?_, ?_⟩
  · rcases DynamoStore.PersistEvent_cases SomeDomainEvent.MarshalMap d ctx event client with
      ⟨cause, hm, _⟩ | ⟨av, cause, c, hm, _, hr⟩ | ⟨av, c, hm, _, hr⟩
    · rw [hmm] at hm; cases hm
    · rw [hmm] at hm; cases hm
      simp [hr, Effect.putCall]
    · rw [hmm] at hm; cases hm
      simp [hr, Effect.putCall]
  · rcases DynamoStore.PersistEvent_cases SomeDomainEvent.MarshalMap d ctx event client with
      ⟨cause, hm, _⟩ | ⟨av, cause, c, hm, hs, hr⟩ | ⟨av, c, hm, hs, hr⟩
    · rw [hmm] at hm; cases hm
    · rw [hmm] at hm; cases hm
      rw [hr, hs]
    · rw [hmm] at hm; cases hm
      rw [hr, hs]
  · intro cause hc
    rcases DynamoStore.PersistEvent_cases SomeDomainEvent.MarshalMap d ctx event client with
      ⟨cause', hm, _⟩ | ⟨av, cause', c, hm, hs, hr⟩ | ⟨av, c, hm, hs, hr⟩
    · rw [hmm] at hm; cases hm
    · rw [hmm] at hm; cases hm
      rw [hs] at hc; cases hc
      exact ⟨by rw [hr], rfl⟩
    · rw [hmm] at hm; cases hm
      rw [hs] at hc; cases hc
  · intro hc
    rcases DynamoStore.PersistEvent_cases SomeDomainEvent.MarshalMap d ctx event client with
      ⟨cause', hm, _⟩ | ⟨av, cause', c, hm, hs, hr⟩ | ⟨av, c, hm, hs, hr⟩
    · rw [hmm] at hm; cases hm
    · rw [hmm] at hm; cases hm
      rw [hs] at hc; cases hc
    · rw [hr]
  · intro marshalMap cause hm
    rcases DynamoStore.PersistEvent_cases marshalMap d ctx event client with
      ⟨cause', hm', hr⟩ | ⟨av, cause', c, hm', _, _⟩ | ⟨av, c, hm', _, _⟩
    · rw [hm] at hm'; cases hm'
      exact ⟨by rw [hr], rfl, by rw [hr]; rfl⟩
    · rw [hm] at hm'; cases hm'
    · rw [hm] at hm'; cases hm'

/-- The four ways a call of the endpoint can go. -/
theorem NewEventReceiverEndpoint_cases {ρ : Type}
    (unmarshal : GoString → Except GoError InboundEventPayload) (er : api.EventReceiver ρ)
    (request : Request) (receiver : ρ) :
    (∃ cause, request.Body = .error cause ∧
      NewEventReceiverEndpoint unmarshal er request receiver =
        { receiver := receiver
          trace := [Effect.log request.ctx .error
              "error reading request body while receiving event",
            Effect.respond Response.error] }) ∨
    (∃ body cause, request.Body = .ok body ∧ unmarshal body = .error cause ∧
      NewEventReceiverEndpoint unmarshal er request receiver =
        { receiver := receiver
          trace := [Effect.log request.ctx .warn "error unmarshalling request",
            Effect.respond
              (Response.badRequest ["Unable to process request body: " ++ cause.Error] [])] }) ∨
    (∃ body payload cause receiver', request.Body = .ok body ∧ unmarshal body = .ok payload ∧
      er.ReceiveInboundEvent request.ctx payload.Source payload.Message receiver =
        (some cause, receiver') ∧
      NewEventReceiverEndpoint unmarshal er request receiver =
        { receiver := receiver'
          trace := [Effect.receiveInboundEvent request.ctx payload.Source payload.Message,
            Effect.log request.ctx .error "error receiving event",
            Effect.respond Response.error] }) ∨
    (∃ body payload receiver', request.Body = .ok body ∧ unmarshal body = .ok payload ∧
      er.ReceiveInboundEvent request.ctx payload.Source payload.Message receiver =
        (none, receiver') ∧
      NewEventReceiverEndpoint unmarshal er request receiver =
        { receiver := receiver'
          trace := [Effect.receiveInboundEvent request.ctx payload.Source payload.Message,
            Effect.respond (Response.accepted "event received and accepted")] }) := by
  cases hb : request.Body with
  | error cause =>
    refine Or.inl ⟨cause, rfl, ?_⟩
    simp [NewEventReceiverEndpoint, hb]
  | ok body =>
    cases hu : unmarshal body with
    | error cause =>
      refine Or.inr (Or.inl ⟨body, cause, rfl, hu, ?_⟩)
      simp [NewEventReceiverEndpoint, hb, hu]
    | ok payload =>
      rcases hr : er.ReceiveInboundEvent request.ctx payload.Source payload.Message receiver with
        ⟨_ | cause, r⟩
      · refine Or.inr (Or.inr (Or.inr ⟨body, payload, r, rfl, hu, hr, ?_⟩))
        simp [NewEventReceiverEndpoint, hb, hu, hr]
      · refine Or.inr (Or.inr (Or.inl ⟨body, payload, cause, r, rfl, hu, hr, ?_⟩))
        simp [NewEventReceiverEndpoint, hb, hu, hr]

/-- A body that is an object with just the members `message` and `source`,
both strings, decodes to the payload with that message and that source. -/
theorem UnmarshalPayload_of_shape (body : GoString) (m s : String)
    (h : json.parse body = some (.object [("message", .string m), ("source", .string s)]) ∨
      json.parse body = some (.object [("source", .string s), ("message", .string m)])) :
    json.UnmarshalPayload body =
      .ok { Message := GoString.ofString m, Source := GoString.ofString s } := by
  have h1 : json.findField InboundEventPayload.fields "message" =
      some { Name := "Message", Tag := [("json", "message")] } := by decide
  have h2 : json.findField InboundEventPayload.fields "source" =
      some { Name := "Source", Tag := [("json", "source")] } := by decide
  rcases h with h | h <;>
    simp only [json.UnmarshalPayload, json.unmarshalStruct, h, json.decodeMembers, h1, h2] <;>
    rfl

/-- A body that is `null` or the empty object decodes to the payload with an
empty message and an empty source. -/
theorem UnmarshalPayload_of_empty (body : GoString)
    (h : json.parse body = some .null ∨ json.parse body = some (.object [])) :
    json.UnmarshalPayload body = .ok { Message := [], Source := [] } := by
  rcases h with h | h <;>
    simp only [json.UnmarshalPayload, json.unmarshalStruct, h, json.decodeMembers] <;>
    rfl

/-- The three kinds of bodies that are read but not decoded: a text that is
not valid JSON, a JSON value that is neither an object nor `null`, and an object
with a member named as a field of the payload, exactly or up to case, whose
value is neither a string nor `null`. -/
theorem not_unmarshals_of_kind (body : GoString)
    (h : json.parse body = none ∨
      (∃ v, json.parse body = some v ∧ v.isObject = false ∧ v.isNull = false) ∨
      (∃ members key v, json.parse body = some (.object members) ∧ (key, v) ∈ members ∧
        (json.findField InboundEventPayload.fields key).isSome = true ∧
        v.fitsString = false)) :
    json.unmarshals InboundEventPayload.fields body = false := by
  rcases h with h | ⟨v, h, ho, hn⟩ | ⟨members, key, v, h, hmem, hf, hv⟩
  · simp [json.unmarshals, h]
  · cases v <;>
      simp_all [json.unmarshals, json.storesWithoutError, json.Value.isObject,
        json.Value.isNull]
  · simp only [json.unmarshals, h, json.storesWithoutError]
    rw [Bool.eq_false_iff]
    intro hall
    have := List.all_eq_true.1 hall (key, v) hmem
    cases hfind : json.findField InboundEventPayload.fields key with
    | none => rw [hfind] at hf; cases hf
    | some f => simp [hfind, hv] at this

/-- Claim C10, as stated, fails: the body `{}` is not an object of the shape
`{"message": string, "source": string}`, yet the endpoint hands it to the
receiver, as an event with an empty source and an empty message, and answers
that the event was accepted, not with a bad request. -/
theorem C10_empty_object_reaches_the_receiver :
    bodyHasPayloadShape (GoString.ofString "\x7b\x7d") = false ∧
      NewEventReceiverEndpoint json.UnmarshalPayload memoryReceiver
          { ctx := [], Body := .ok (GoString.ofString "\x7b\x7d") } [] =
        { receiver := [([], [])]
          trace := [Effect.receiveInboundEvent [] [] [],
            Effect.respond (Response.accepted "event received and accepted")] } := by
  constructor
  · decide
  · rfl

/-- Claim C10, as amended. The endpoint calls `ReceiveInboundEvent` exactly
once, with the decoded source and message, exactly when the body was read and
`json.Unmarshal` into an `InboundEventPayload` returns no error, which is when
the body is valid JSON for `null` or for an object in which every member named
`message` or `source`, exactly or up to case, is a string or `null`. A body that
is an object of the shape `{"message": string, "source": string}` is such a
body, and reaches the receiver with that source and that message; `null` and
`{}` are such bodies too, and reach it with an empty source and an empty
message. Every other body that was read (a text that is not valid JSON, a JSON
value that is neither an object nor `null`, an object with a `message` or
`source` member that is neither a string nor `null`) is answered with a bad
request, and a body that could not be read with the error response; neither
reaches the receiver, which is left as it was. -/
theorem C10_endpoint_calls_the_receiver_iff_the_body_unmarshals {ρ : Type}
    (er : api.EventReceiver ρ) (request : Request) (receiver : ρ) :
    (∀ body payload, request.Body = .ok body → json.UnmarshalPayload body = .ok payload →
      (NewEventReceiverEndpoint json.UnmarshalPayload er request receiver).trace.filterMap
        Effect.receiveCall = [(request.ctx, payload.Source, payload.Message)]) ∧
    ((NewEventReceiverEndpoint json.UnmarshalPayload er request receiver).trace.filterMap
        Effect.receiveCall ≠ [] ↔
      ∃ body, request.Body = .ok body ∧
        json.unmarshals InboundEventPayload.fields body = true) ∧
    (∀ body m s, request.Body = .ok body →
      (json.parse body = some (.object [("message", .string m), ("source", .string s)]) ∨
        json.parse body = some (.object [("source", .string s), ("message", .string m)])) →
      (NewEventReceiverEndpoint json.UnmarshalPayload er request receiver).trace.filterMap
        Effect.receiveCall = [(request.ctx, GoString.ofString s, GoString.ofString m)]) ∧
    (∀ body, request.Body = .ok body →
      (json.parse body = some .null ∨ json.parse body = some (.object [])) →
      (NewEventReceiverEndpoint json.UnmarshalPayload er request receiver).trace.filterMap
        Effect.receiveCall = [(request.ctx, [], [])]) ∧
    (∀ body, request.Body = .ok body →
      json.unmarshals InboundEventPayload.fields body = false →
      (NewEventReceiverEndpoint json.UnmarshalPayload er request receiver).trace.filterMap
          Effect.receiveCall = [] ∧
        (∃ cause : GoError,
          (NewEventReceiverEndpoint json.UnmarshalPayload er request receiver).trace.filterMap
            Effect.response =
            [Response.badRequest ["Unable to process request body: " ++ cause.Error] []]) ∧
        (NewEventReceiverEndpoint json.UnmarshalPayload er request receiver).receiver =
          receiver) ∧
    (∀ body, request.Body = .ok body →
      (json.parse body = none ∨
        (∃ v, json.parse body = some v ∧ v.isObject = false ∧ v.isNull = false) ∨
        (∃ members key v, json.parse body = some (.object members) ∧ (key, v) ∈ members ∧
          (json.findField InboundEventPayload.fields key).isSome = true ∧
          v.fitsString = false)) →
      (NewEventReceiverEndpoint json.UnmarshalPayload er request receiver).trace.filterMap
          Effect.receiveCall = [] ∧
        (∃ cause : GoError,
          (NewEventReceiverEndpoint json.UnmarshalPayload er request receiver).trace.filterMap
            Effect.response =
            [Response.badRequest ["Unable to process request body: " ++ cause.Error] []]) ∧
        (NewEventReceiverEndpoint json.UnmarshalPayload er request receiver).receiver =
          receiver) ∧
    (∀ cause, request.Body = .error cause →
      (NewEventReceiverEndpoint json.UnmarshalPayload er request receiver).trace.filterMap
          Effect.receiveCall = [] ∧
        (NewEventReceiverEndpoint json.UnmarshalPayload er request receiver).trace.filterMap
          Effect.response = [Response.error] ∧
        (NewEventReceiverEndpoint json.UnmarshalPayload er request receiver).receiver =
          receiver) := by
  have key : ∀ body payload, request.Body = .ok body →
      json.UnmarshalPayload body = .ok payload →
      (NewEventReceiverEndpoint json.UnmarshalPayload er request receiver).trace.filterMap
        Effect.receiveCall = [(request.ctx, payload.Source, payload.Message)] := by
    intro body payload hb hu
    rcases NewEventReceiverEndpoint_cases json.UnmarshalPayload er request receiver with
      ⟨c, hb', _⟩ | ⟨b, c, hb', hu', _⟩ | ⟨b, p, c, r, hb', hu', _, hr⟩ |
      ⟨b, p, r, hb', hu', _, hr⟩
    · rw [hb] at hb'; cases hb'
    · rw [hb] at hb'; cases hb'
      rw [hu] at hu'; cases hu'
    · rw [hb] at hb'; cases hb'
      rw [hu] at hu'; cases hu'
      simp [hr, Effect.receiveCall]
    · rw [hb] at hb'; cases hb'
      rw [hu] at hu'; cases hu'
      simp [hr, Effect.receiveCall]
  have reject : ∀ body, request.Body = .ok body →
      json.unmarshals InboundEventPayload.fields body = false →
      (NewEventReceiverEndpoint json.UnmarshalPayload er request receiver).trace.filterMap
          Effect.receiveCall = [] ∧
        (∃ cause : GoError,
          (NewEventReceiverEndpoint json.UnmarshalPayload er request receiver).trace.filterMap
            Effect.response =
            [Response.badRequest ["Unable to process request body: " ++ cause.Error] []]) ∧
        (NewEventReceiverEndpoint json.UnmarshalPayload er request receiver).receiver =
          receiver := by
    intro body hb hn
    obtain ⟨cause, hu⟩ := json.UnmarshalPayload_error_of_not_unmarshals body hn
    rcases NewEventReceiverEndpoint_cases json.UnmarshalPayload er request receiver with
      ⟨c, hb', _⟩ | ⟨b, c, hb', hu', hr⟩ | ⟨b, p, c, r, hb', hu', _, _⟩ |
      ⟨b, p, r, hb', hu', _, _⟩
    · rw [hb] at hb'; cases hb'
    · rw [hb] at hb'; cases hb'
      rw [hu] at hu'; cases hu'
      refine ⟨by simp [hr, Effect.receiveCall], ⟨cause, ?_⟩, by rw [hr]⟩
      simp [hr, Effect.response]
    · rw [hb] at hb'; cases hb'
      rw [hu] at hu'; cases hu'
    · rw [hb] at hb'; cases hb'
      rw [hu] at hu'; cases hu'
  refine ⟨key, ?_, ?_, ?_, reject, ?_, ?_⟩
  · constructor
    · intro hne
      rcases NewEventReceiverEndpoint_cases json.UnmarshalPayload er request receiver with
        ⟨c, hb, hr⟩ | ⟨b, c, hb, hu, hr⟩ | ⟨b, p, c, r, hb, hu, _, hr⟩ | ⟨b, p, r, hb, hu, _, hr⟩
      · exact absurd (by simp [hr, Effect.receiveCall]) hne
      · exact absurd (by simp [hr, Effect.receiveCall]) hne
      · exact ⟨b, hb, (json.UnmarshalPayload_ok_iff b).1 ⟨p, hu⟩⟩
      · exact ⟨b, hb, (json.UnmarshalPayload_ok_iff b).1 ⟨p, hu⟩⟩
    · rintro ⟨body, hb, hok⟩
      obtain ⟨payload, hu⟩ := (json.UnmarshalPayload_ok_iff body).2 hok
      rw [key body payload hb hu]
      simp
  · intro body m s hb hshape
    exact key body _ hb (UnmarshalPayload_of_shape body m s hshape)
  · intro body hb hempty
    exact key body _ hb (UnmarshalPayload_of_empty body hempty)
  · intro body hb hkind
    exact reject body hb (not_unmarshals_of_kind body hkind)
  · intro cause hb
    rcases NewEventReceiverEndpoint_cases json.UnmarshalPayload er request receiver with
      ⟨c, _, hr⟩ | ⟨b, c, hb', _, _⟩ | ⟨b, p, c, r, hb', _, _, _⟩ | ⟨b, p, r, hb', _, _, _⟩
    · simp [hr, Effect.receiveCall, Effect.response]
    · rw [hb] at hb'; cases hb'
    · rw [hb] at hb'; cases hb'
    · rw [hb] at hb'; cases hb'

/-- Claim C5, as stated, fails: on a request whose `Records` is `nil` the
handler returns a `nil` error, with an empty response. -/
theorem C5_nil_batch_returns_nil_error :
    (NewHandler json.Unmarshal { tag := "consumer" } memoryStore []
        { Records := none } []).err = none ∧
      (NewHandler json.Unmarshal { tag := "consumer" } memoryStore []
        { Records := none } []).response = { BatchItemFailures := [] } := by
  exact ⟨rfl, rfl⟩

/-! ## The claims on concrete runs -/

/-- On the batch of a good, a malformed and a rejected message, whose
identifiers are pairwise distinct, claim C1 gives the failures `m-2` and `m-3`,
and `m-1`, which was persisted, is not listed. -/
theorem C1_example_batch :
    (exampleBatch.batch.map (·.MessageId)).Nodup ∧
      failedIds (NewHandler json.Unmarshal { tag := "consumer" } pickyStore []
        exampleBatch []).response = ["m-2", "m-3"] ∧
      goodMessage.MessageId ∉
        failedIds (NewHandler json.Unmarshal { tag := "consumer" } pickyStore []
          exampleBatch []).response :=
  ⟨by decide,
    (C1_failures_are_the_failed_messages json.Unmarshal { tag := "consumer" } pickyStore []
      exampleBatch []).2.1.trans (by decide),
    (C1_failures_are_the_failed_messages json.Unmarshal { tag := "consumer" } pickyStore []
      exampleBatch []).2.2.2 (by decide) goodMessage (by decide)⟩

/-- On a batch in which the same event arrives twice with a malformed
message in between, claim C2 gives two `PersistEvent` calls with that event: the
second copy is neither dropped as a duplicate nor stopped by the failure before
it. -/
theorem C2_example_duplicate_batch :
    (NewHandler json.Unmarshal { tag := "consumer" } memoryStore []
        duplicateBatch []).trace.filterMap Effect.persistCall =
      [([.correlationID "c-1", .logger { tag := "consumer" }],
          { ID := GoString.ofString "e-1", Message := GoString.ofString "hello"
            Source := GoString.ofString "web" }),
        ([.correlationID "c-1", .logger { tag := "consumer" }],
          { ID := GoString.ofString "e-1", Message := GoString.ofString "hello"
            Source := GoString.ofString "web" })] :=
  (C2_persist_called_once_per_decoded_message json.Unmarshal { tag := "consumer" } memoryStore
    [] duplicateBatch []).1.trans (by decide)

/-- On the batch of a good, a malformed and a rejected message, claim C3
counts two failures and one successful persist, three outcomes for three
messages. -/
theorem C3_example_batch :
    (NewHandler json.Unmarshal { tag := "consumer" } pickyStore []
        exampleBatch []).response.BatchItemFailures.length = 2 ∧
      (NewHandler json.Unmarshal { tag := "consumer" } pickyStore []
          exampleBatch []).response.BatchItemFailures.length +
        ((NewHandler json.Unmarshal { tag := "consumer" } pickyStore []
          exampleBatch []).trace.filter Effect.isPersisted).length = exampleBatch.batch.length :=
  ⟨by decide,
    (C3_each_message_has_exactly_one_outcome json.Unmarshal { tag := "consumer" } pickyStore []
      exampleBatch []).2.2.2.1⟩

/-- On the messages of the example batch, claim C6 gives the first message
the context with its correlation identifier `c-1`, and the third message, whose
attribute has no string value, the invocation context with the logger. -/
theorem C6_example_messages :
    correlation.FromContext
        (messageContext (Logger.WithContext { tag := "consumer" } []) goodMessage) = "c-1" ∧
      messageContext (Logger.WithContext { tag := "consumer" } [.correlationID "c-0"])
          poisonMessage =
        Logger.WithContext { tag := "consumer" } [.correlationID "c-0"] :=
  ⟨((C6_message_context json.Unmarshal { tag := "consumer" } pickyStore [] exampleBatch
      []).2.2.1 goodMessage { StringValue := some "c-1", DataType := "String" } "c-1"
      (by decide) rfl).2,
    ((C6_message_context json.Unmarshal { tag := "consumer" } pickyStore
      [.correlationID "c-0"] exampleBatch []).2.2.2 poisonMessage
      (Or.inr ⟨{ StringValue := none, DataType := "Binary" }, by decide, rfl⟩)).1⟩

/-- For the source `web` and the message `hello`, which are valid UTF-8,
as is the identity generated, claim C7 as amended gives one `SendMessage` call
whose body decodes as the event with that identity, message and source. -/
theorem C7_example_valid_strings :
    ∃ body,
      ((NewEventReceiver countingIDs memoryQueue "https://queue" []).ReceiveInboundEvent
          json.Marshal [CtxValue.logger { tag := "api" }] (GoString.ofString "web")
          (GoString.ofString "hello") 0 []).trace.filterMap Effect.sendCall =
        [([CtxValue.logger { tag := "api" }],
          { MessageBody := some body
            QueueUrl := some "https://queue"
            DelaySeconds := 0
            MessageAttributes :=
              [("correlationID", { DataType := some "String", StringValue := some "" })] })] ∧
      json.Unmarshal body =
        .ok { ID := GoString.ofString "id-", Message := GoString.ofString "hello"
              Source := GoString.ofString "web" } := by
  obtain ⟨body, hsend, _, _, hvalid⟩ :=
    (C7_publish_sends_one_decodable_message
      (NewEventReceiver countingIDs memoryQueue "https://queue" [])
      [CtxValue.logger { tag := "api" }] (GoString.ofString "web")
      (GoString.ofString "hello") 0 []).2.2.1
  exact ⟨body, hsend, hvalid (by decide) (by decide) (by decide)⟩

/-- For a queue that is unreachable, claim C8 gives the error of the queue,
wrapped. -/
theorem C8_example_unreachable_queue :
    ((NewEventReceiver countingIDs downQueue "https://queue" []).ReceiveInboundEvent
        json.Marshal [] (GoString.ofString "web") (GoString.ofString "hello") 0 []).err =
        some (fmtErrorfW "error publishing event: " (.leaf "queue unreachable")) ∧
      (fmtErrorfW "error publishing event: " (.leaf "queue unreachable")).Unwrap =
        some (.leaf "queue unreachable") :=
  ((C8_publish_error_iff_a_step_fails json.Marshal
    (NewEventReceiver countingIDs downQueue "https://queue" []) [] (GoString.ofString "web")
    (GoString.ofString "hello") 0 []).2.1
    (GoString.ofString "\x7b\"id\":\"id-\",\"message\":\"hello\",\"source\":\"web\"\x7d")
    rfl).2.2.1 (.leaf "queue unreachable") rfl

/-- For a table that is unreachable, claim C9 as amended gives the error of
the table, wrapped. -/
theorem C9_example_unreachable_table :
    ((NewDynamoStore downTable "events").PersistEvent SomeDomainEvent.MarshalMap []
        { ID := GoString.ofString "e-1", Message := GoString.ofString "hello"
          Source := GoString.ofString "web" } []).err =
        some (fmtErrorfW "error persisting event: " (.leaf "table unreachable")) ∧
      (fmtErrorfW "error persisting event: " (.leaf "table unreachable")).Unwrap =
        some (.leaf "table unreachable") :=
  (C9_persist_puts_the_event_under_its_go_field_names (NewDynamoStore downTable "events") []
    { ID := GoString.ofString "e-1", Message := GoString.ofString "hello"
      Source := GoString.ofString "web" } []).2.2.1 (.leaf "table unreachable") rfl

/-- Claim C10 as amended on three bodies. The body
`{"message":"hello","source":"web"}` gives one call of the receiver, with the
source `web` and the message `hello`. The body `not json`, which is not valid
JSON, and the body `{"message":1,"source":"web"}`, whose message is a number,
give no call of the receiver and a bad request. -/
theorem C10_example_bodies :
    (NewEventReceiverEndpoint json.UnmarshalPayload memoryReceiver
        { ctx := []
          Body := .ok (GoString.ofString
            "\x7b\"message\":\"hello\",\"source\":\"web\"\x7d") }
        []).trace.filterMap Effect.receiveCall =
        [([], GoString.ofString "web", GoString.ofString "hello")] ∧
      ((NewEventReceiverEndpoint json.UnmarshalPayload memoryReceiver
          { ctx := [], Body := .ok (GoString.ofString "not json") }
          []).trace.filterMap Effect.receiveCall = [] ∧
        ∃ cause : GoError,
          (NewEventReceiverEndpoint json.UnmarshalPayload memoryReceiver
            { ctx := [], Body := .ok (GoString.ofString "not json") }
            []).trace.filterMap Effect.response =
            [Response.badRequest ["Unable to process request body: " ++ cause.Error] []]) ∧
      ((NewEventReceiverEndpoint json.UnmarshalPayload memoryReceiver
          { ctx := []
            Body := .ok (GoString.ofString "\x7b\"message\":1,\"source\":\"web\"\x7d") }
          []).trace.filterMap Effect.receiveCall = [] ∧
        ∃ cause : GoError,
          (NewEventReceiverEndpoint json.UnmarshalPayload memoryReceiver
            { ctx := []
              Body := .ok (GoString.ofString "\x7b\"message\":1,\"source\":\"web\"\x7d") }
            []).trace.filterMap Effect.response =
            [Response.badRequest ["Unable to process request body: " ++ cause.Error] []]) :=
  ⟨(C10_endpoint_calls_the_receiver_iff_the_body_unmarshals memoryReceiver
      { ctx := []
        Body := .ok (GoString.ofString
          "\x7b\"message\":\"hello\",\"source\":\"web\"\x7d") } []).2.2.1
      (GoString.ofString "\x7b\"message\":\"hello\",\"source\":\"web\"\x7d") "hello" "web" rfl
      (Or.inl rfl),
    (fun h => ⟨h.1, h.2.1⟩)
      ((C10_endpoint_calls_the_receiver_iff_the_body_unmarshals memoryReceiver
        { ctx := [], Body := .ok (GoString.ofString "not json") } []).2.2.2.2.2.1
        (GoString.ofString "not json") rfl (Or.inl rfl)),
    (fun h => ⟨h.1, h.2.1⟩)
      ((C10_endpoint_calls_the_receiver_iff_the_body_unmarshals memoryReceiver
        { ctx := []
          Body := .ok (GoString.ofString "\x7b\"message\":1,\"source\":\"web\"\x7d") }
        []).2.2.2.2.2.1
        (GoString.ofString "\x7b\"message\":1,\"source\":\"web\"\x7d") rfl
        (Or.inr (Or.inr ⟨[("message", .number ['1']), ("source", .string "web")],
          "message", .number ['1'], rfl, List.mem_cons_self _ _, by decide, rfl⟩)))⟩

end GoLambdaDemo
